import Mathlib

/-!
FiniteStateMachine plugin, `UMachineState`.

A shallow embedding of `MachineState.cpp` (label table, label dispatch, teardown of running
label coroutines and of latent-execution cancellers, lifecycle hooks), followed by theorems
about it.

Conventions of the embedding.

* The object `UMachineState` is a record of its member variables; a member function is a Lean
  function from the record (and, where it touches anything outside the object, the `World`)
  to its result and the new record.
* `UE_LOG` lines are diagnostics only and are left out.
* A `check`/`checkNoEntry`/`FindChecked` failure is process-fatal: such functions return
  `Option`, with `none` for the fatal outcome.
* The engine and the coroutine library are not part of the plugin source. What the code needs
  of them (gameplay-tag matching, delegates, coroutine handles) is modelled in the first
  section, each definition saying what it stands for.
-/

namespace FSM

/-! ## Engine-side collaborators -/

/-- Gameplay tag: a dot-separated hierarchical name, kept as the list of its components
(`"StateMachine.Label.Default"` is `["StateMachine", "Label", "Default"]`). The empty list is
the invalid (empty) tag. -/
structure FGameplayTag where
  parts : List String
deriving DecidableEq, Repr

/-- Modelled from the spec: the label-namespace authority, `FGameplayTag::MatchesTag` of the
engine. A valid tag matches a valid parent when it is the parent or one of its descendants. -/
def FGameplayTag.MatchesTag (Tag Parent : FGameplayTag) : Bool :=
  !Tag.parts.isEmpty && !Parent.parts.isEmpty && Parent.parts.isPrefixOf Tag.parts

/-- Source `UE_DEFINE_GAMEPLAY_TAG_STATIC(TAG_StateMachine_Label, "StateMachine.Label")`. -/
def TAG_StateMachine_Label : FGameplayTag := ⟨["StateMachine", "Label"]⟩

/-- Source `UE_DEFINE_GAMEPLAY_TAG(TAG_StateMachine_Label_Default, "StateMachine.Label.Default")`. -/
def TAG_StateMachine_Label_Default : FGameplayTag := ⟨["StateMachine", "Label", "Default"]⟩

/-- A user label routine, the coroutine function a label delegate is bound to. `id` names it in
the invocation log. Once invoked it runs synchronously up to its first own suspension and then
needs `suspensions` further resumptions before it finishes (`0`: it finishes synchronously, as
`Label_Default` with its bare `co_return`). `aborts` tells whether it finishes with failure. -/
structure LabelRoutine where
  id : Nat
  suspensions : Nat
  aborts : Bool
deriving DecidableEq, Repr

/-- The delegate type `FLabelSignature` (returns a coroutine). It is unbound, or bound to a user
routine, or it is the `CallbackWrapper` lambda built by `RegisterLabel`, which captures the
delegate it was given. -/
inductive FLabelSignature where
  | unbound : FLabelSignature
  | routine (r : LabelRoutine) : FLabelSignature
  | callbackWrapper (Callback : FLabelSignature) : FLabelSignature
deriving DecidableEq, Repr

/-- Engine `FLabelSignature::IsBound`. A lambda delegate is always bound. -/
def FLabelSignature.IsBound : FLabelSignature → Bool
  | .unbound => false
  | .routine _ => true
  | .callbackWrapper _ => true

/-- Where a coroutine stands.
* `atForcedYield cb`: inside the `CallbackWrapper` body, suspended at
  `co_await Latent::NextTick()`; `co_await Callback.Execute()` with the captured `cb` is still
  ahead.
* `inCallback n`: the user routine has been invoked and is suspended; `n` further resumptions
  finish it.
* `done ok`: finished, `ok` telling whether it ran to completion successfully. -/
inductive Frame where
  | atForcedYield (Callback : FLabelSignature) : Frame
  | inCallback (left : Nat) (aborts : Bool) : Frame
  | done (bSuccessful : Bool) : Frame
deriving DecidableEq, Repr

/-- Shared state of one coroutine, what an `FAsyncCoroutine` handle points to. -/
structure Coroutine where
  bCancelled : Bool
  frame : Frame
deriving DecidableEq, Repr

/-- An `FAsyncCoroutine` handle: the index of the coroutine in the scheduler's table. -/
abbrev FAsyncCoroutine := Nat

/-- Engine `FSimpleDelegate` as stored in `RunningLatentExecutions`: unbound (`none`) or bound to the
canceller with the given id. -/
abbrev FSimpleDelegate := Option Nat

/-- Engine `EStateAction`. -/
inductive EStateAction where
  | Begin | End | Push | Pop | Resume | Pause
deriving DecidableEq, Repr

/-- Everything outside the state object that its member functions read or change: the
scheduler's coroutine table, and the observable traces (user label routines invoked, latent
cancellers invoked, state-action broadcasts), oldest first. -/
structure World where
  coroutines : List Coroutine
  labelInvocations : List Nat
  latentInvocations : List Nat
  broadcasts : List EStateAction
deriving DecidableEq, Repr

/-- The mark that cancellation leaves on a coroutine. -/
def Coroutine.cancel (c : Coroutine) : Coroutine :=
  { c with bCancelled := true }

/-- Modelled from the spec: `TaskHandle.cancel()` of the external task scheduler. Cancellation
is cooperative: the coroutine is only marked cancelled; it is neither resumed nor finished by
the call. -/
def World.Cancel (w : World) (h : FAsyncCoroutine) : World :=
  match w.coroutines[h]? with
  | some c => { w with coroutines := w.coroutines.set h c.cancel }
  | none => w

/-- Whether the coroutine has finished, successfully or not. -/
def Coroutine.IsDone (c : Coroutine) : Bool :=
  match c.frame with
  | .done _ => true
  | _ => false

/-- Modelled from the spec: `TaskHandle.isDone()` of the external task scheduler. -/
def World.IsDone (w : World) (h : FAsyncCoroutine) : Bool :=
  match w.coroutines[h]? with
  | some c => c.IsDone
  | none => false

/-- Running the synchronous part of a user routine that has just been invoked. -/
def LabelRoutine.firstFrame (r : LabelRoutine) : Frame :=
  if r.suspensions = 0 then .done (!r.aborts) else .inCallback r.suspensions r.aborts

/-- The body of a delegate's coroutine run from its start up to its first suspension: the frame
it stops in and the ids of the user routines it has invoked on the way. `none`: executing an
unbound delegate is fatal.

The `CallbackWrapper` body is
`co_await Latent::NextTick(); co_await Callback.Execute();`,
so it stops at once at the forced yield, before `Callback` is touched. -/
def FLabelSignature.start : FLabelSignature → Option (Frame × List Nat)
  | .unbound => none
  | .routine r => some (r.firstFrame, [r.id])
  | .callbackWrapper Callback => some (.atForcedYield Callback, [])

/-- Engine `FLabelSignature::Execute`: start the delegate's coroutine, which runs to its first
suspension, and return the handle of the new coroutine. -/
def FLabelSignature.Execute (f : FLabelSignature) (w : World) :
    Option (FAsyncCoroutine × World) :=
  match f.start with
  | none => none
  | some (fr, ids) =>
    some (w.coroutines.length,
      { w with coroutines := w.coroutines ++ [{ bCancelled := false, frame := fr }],
               labelInvocations := w.labelInvocations ++ ids })

/-- Engine `FSimpleDelegate::ExecuteIfBound`: invoke the canceller when bound; tells whether it did. -/
def World.ExecuteIfBound (w : World) (d : FSimpleDelegate) : Bool × World :=
  match d with
  | some id => (true, { w with latentInvocations := w.latentInvocations ++ [id] })
  | none => (false, w)

/-- Engine `TMap::Find`: the value stored under the key, if any. -/
def TMap.Find {K V : Type} [DecidableEq K] : List (K × V) → K → Option V
  | [], _ => none
  | (k, v) :: rest, key => if k = key then some v else TMap.Find rest key

/-- Engine `TMap::Add`: store the value under the key, replacing the value of an existing key. -/
def TMap.Add {K V : Type} [DecidableEq K] : List (K × V) → K → V → List (K × V)
  | [], key, val => [(key, val)]
  | (k, v) :: rest, key, val =>
    if k = key then (k, val) :: rest else (k, v) :: TMap.Add rest key val

/-! ## `UMachineState` -/

/-- The member variables of a `UMachineState` object. `Class` is what `GetClass()` returns,
`bGlobal` tells whether the object is a `UGlobalMachineState`. Object references
(`StateMachine`, `StateDataClass`, `BaseStateData`) are ids, `none` for null. -/
structure UMachineState where
  Class : Nat
  bGlobal : Bool
  RegisteredLabels : List (FGameplayTag × FLabelSignature)
  ActiveLabel : FGameplayTag
  bLabelActivated : Bool
  RunningLabelCoroutines : List FAsyncCoroutine
  RunningLatentExecutions : List FSimpleDelegate
  StateMachine : Option Nat
  StateDataClass : Option Nat
  BaseStateData : Option Nat
deriving DecidableEq, Repr

namespace UMachineState

/-- Source `UMachineState::IsLabelTagCorrect`. -/
def IsLabelTagCorrect (Tag : FGameplayTag) : Bool :=
  Tag.MatchesTag TAG_StateMachine_Label

/-- Source `UMachineState::ContainsLabel`. -/
def ContainsLabel (s : UMachineState) (Label : FGameplayTag) : Bool :=
  (TMap.Find s.RegisteredLabels Label).isSome

/-- Source `UMachineState::RegisterLabel`: the result and the object afterwards. -/
def RegisterLabel (s : UMachineState) (Label : FGameplayTag) (Callback : FLabelSignature) :
    Bool × UMachineState :=
  if !IsLabelTagCorrect Label then (false, s)
  else if !Callback.IsBound then (false, s)
  else if s.ContainsLabel Label then (false, s)
  else
    let CallbackWrapper := FLabelSignature.callbackWrapper Callback
    (true, { s with RegisteredLabels := TMap.Add s.RegisteredLabels Label CallbackWrapper })

/-- The loop of `StopRunningLabels` over the tracked handles: cancel, then count the handle if
it does not report done. The counter is an `int32` in the source; it is bounded by the length
of the array, which an `int32` holds, so it cannot wrap. -/
def StopRunningLabels.loop : List FAsyncCoroutine → World → Nat → World × Nat
  | [], w, StoppedCoroutines => (w, StoppedCoroutines)
  | RunningLabelCoroutine :: rest, w, StoppedCoroutines =>
    let w1 := w.Cancel RunningLabelCoroutine
    StopRunningLabels.loop rest w1
      (if !w1.IsDone RunningLabelCoroutine then StoppedCoroutines + 1 else StoppedCoroutines)

/-- Source `UMachineState::StopRunningLabels`: the count returned, the object and the world
afterwards. -/
def StopRunningLabels (s : UMachineState) (w : World) : Nat × UMachineState × World :=
  let r := StopRunningLabels.loop s.RunningLabelCoroutines w 0
  (r.2, { s with RunningLabelCoroutines := [] }, r.1)

/-- Source `UMachineState::ClearInvalidLatentExecutionCancellers`: drop the unbound cancellers and
return how many were dropped. -/
def ClearInvalidLatentExecutionCancellers (s : UMachineState) : Nat × UMachineState :=
  let kept := s.RunningLatentExecutions.filter (fun Item => Item.isSome)
  (s.RunningLatentExecutions.length - kept.length, { s with RunningLatentExecutions := kept })

/-- The loop of `StopLatentExecution_Implementation` over the stored cancellers. -/
def StopLatentExecution_Implementation.loop : List FSimpleDelegate → World → Nat → World × Nat
  | [], w, StoppedCoroutines => (w, StoppedCoroutines)
  | RunningLatentExecution :: rest, w, StoppedCoroutines =>
    let r := w.ExecuteIfBound RunningLatentExecution
    StopLatentExecution_Implementation.loop rest r.2
      (if r.1 then StoppedCoroutines + 1 else StoppedCoroutines)

/-- Source `UMachineState::StopLatentExecution_Implementation`, the state's own latent sweep. -/
def StopLatentExecution_Implementation (s : UMachineState) (w : World) :
    Nat × UMachineState × World :=
  let r := StopLatentExecution_Implementation.loop s.RunningLatentExecutions w 0
  (r.2, { s with RunningLatentExecutions := [] }, r.1)

/-- Source `UMachineState::Tick`. `DeltaSeconds` is not used by the body and is left out. `none` is the
fatal `FindChecked` on a missing active label (or executing an unbound delegate, which the
`ensure` excludes). A failed `ensure` is not fatal: the body is skipped. -/
def Tick (s : UMachineState) (w : World) : Option (UMachineState × World) :=
  if !s.bLabelActivated then
    match TMap.Find s.RegisteredLabels s.ActiveLabel with
    | none => none
    | some LabelFunction =>
      if LabelFunction.IsBound then
        match LabelFunction.Execute w with
        | none => none
        | some (h, w1) =>
          some ({ s with bLabelActivated := true,
                         RunningLabelCoroutines := s.RunningLabelCoroutines ++ [h] }, w1)
      else some (s, w)
  else some (s, w)

/-- Source `UMachineState::SetInitialLabel`. -/
def SetInitialLabel (s : UMachineState) (Label : FGameplayTag) : UMachineState :=
  { s with ActiveLabel := Label, bLabelActivated := false }

/-- Source `UMachineState::GotoLabel`: the result and the object afterwards. -/
def GotoLabel (s : UMachineState) (Label : FGameplayTag) : Bool × UMachineState :=
  if !IsLabelTagCorrect Label then (false, s)
  else if !s.ContainsLabel Label then (false, s)
  else (true, { s with ActiveLabel := Label, bLabelActivated := false })

/-- Source `UMachineState::Begin`. `PreviousState` is the class of the state left. -/
def Begin (s : UMachineState) (w : World) (_PreviousState : Option Nat) :
    UMachineState × World :=
  (s, w)

/-- Source `UMachineState::End`. `NewState` is the class of the state entered. -/
def End (s : UMachineState) (w : World) (_NewState : Option Nat) : UMachineState × World :=
  let r1 := s.StopRunningLabels w
  let r2 := r1.2.1.StopLatentExecution_Implementation r1.2.2
  ({ r2.2.1 with ActiveLabel := TAG_StateMachine_Label_Default }, r2.2.2)

/-- Source `UMachineState::Pushed`. -/
def Pushed (s : UMachineState) (w : World) : UMachineState × World :=
  (s, w)

/-- Source `UMachineState::Popped`. -/
def Popped (s : UMachineState) (w : World) : UMachineState × World :=
  let r1 := s.StopRunningLabels w
  let r2 := r1.2.1.StopLatentExecution_Implementation r1.2.2
  ({ r2.2.1 with ActiveLabel := TAG_StateMachine_Label_Default }, r2.2.2)

/-- Source `UMachineState::Paused`. -/
def Paused (s : UMachineState) (w : World) : UMachineState × World :=
  (s, w)

/-- Source `UMachineState::Resumed`. -/
def Resumed (s : UMachineState) (w : World) : UMachineState × World :=
  (s, w)

/-- Source `UMachineState::Label_Default`: a bare `co_return`. -/
def Label_Default : LabelRoutine :=
  { id := 0, suspensions := 0, aborts := false }

/-- Modelled from the spec: the constructor `UMachineState::UMachineState`. The member
initialisers and the `REGISTER_LABEL` macro are in the header, which is not part of the source
at hand: the active label starts as the reserved `Default` label and is not activated, nothing
is tracked, the state machine is not bound, and `REGISTER_LABEL(Default)` registers
`Label_Default` under `TAG_StateMachine_Label_Default`. `StateDataClass` is set to
`UMachineStateData::StaticClass()`, here class id `0`. -/
def ctor (Class : Nat) (bGlobal : Bool) : UMachineState :=
  (RegisterLabel
    { Class := Class, bGlobal := bGlobal, RegisteredLabels := [],
      ActiveLabel := TAG_StateMachine_Label_Default, bLabelActivated := false,
      RunningLabelCoroutines := [], RunningLatentExecutions := [],
      StateMachine := none, StateDataClass := some 0, BaseStateData := none }
    TAG_StateMachine_Label_Default (.routine Label_Default)).2

end UMachineState

/-! ## The scheduler -/

/-- Modelled from the spec: one resumption of a suspended coroutine by the external task
scheduler, giving the coroutine afterwards and the ids of the user routines invoked meanwhile.
A finished coroutine stays as it is. A cancelled one observes the cancellation at the
suspension point it is resumed from and unwinds: it finishes, unsuccessfully, and runs nothing
more of its body. Otherwise the body goes on: past the forced yield the wrapper executes the
captured callback and awaits it; inside the callback one suspension is used up. `none`:
executing an unbound delegate is fatal. -/
def Coroutine.resume (c : Coroutine) : Option (Coroutine × List Nat) :=
  match c.frame with
  | .done _ => some (c, [])
  | .atForcedYield Callback =>
    if c.bCancelled then some ({ c with frame := .done false }, [])
    else match Callback.start with
      | none => none
      | some (fr, ids) => some ({ c with frame := fr }, ids)
  | .inCallback left aborts =>
    if c.bCancelled then some ({ c with frame := .done false }, [])
    else if left ≤ 1 then some ({ c with frame := .done (!aborts) }, [])
    else some ({ c with frame := .inCallback (left - 1) aborts }, [])

/-- Resume every coroutine of the table once, in table order. -/
def World.resumeAll : List Coroutine → Option (List Coroutine × List Nat)
  | [] => some ([], [])
  | c :: rest =>
    match c.resume with
    | none => none
    | some (c1, ids) =>
      match World.resumeAll rest with
      | none => none
      | some (rest1, ids1) => some (c1 :: rest1, ids ++ ids1)

/-- Modelled from the spec: one scheduling tick of the external task scheduler: every
coroutine that is suspended is resumed once. -/
def World.NextTick (w : World) : Option World :=
  match World.resumeAll w.coroutines with
  | none => none
  | some (cs, ids) =>
    some { w with coroutines := cs, labelInvocations := w.labelInvocations ++ ids }

/-- Several scheduling ticks in a row. -/
def World.NextTicks : Nat → World → Option World
  | 0, w => some w
  | n + 1, w =>
    match w.NextTick with
    | none => none
    | some w1 => World.NextTicks n w1

/-- A coroutine that will run nothing more of its body: it is finished, or it is cancelled and
will unwind when resumed. -/
def Coroutine.quiet (c : Coroutine) : Bool :=
  c.IsDone || c.bCancelled

/-! ## Dispatch of state actions, global states -/

/-- Modelled from the spec: the number held by an `EStateAction` variable. The enumeration is
declared in the header, which is not part of the source at hand; its enumerators are the closed
set Begin, End, Push, Pop, Resume, Pause, numbered here in the order of the `switch` of
`OnStateAction`. -/
def EStateAction.toRaw : EStateAction → Nat
  | .Begin => 0
  | .End => 1
  | .Push => 2
  | .Pop => 3
  | .Resume => 4
  | .Pause => 5

/-- The enumerator a number stands for; `none` for a value outside the closed set. -/
def EStateAction.ofRaw : Nat → Option EStateAction
  | 0 => some .Begin
  | 1 => some .End
  | 2 => some .Push
  | 3 => some .Pop
  | 4 => some .Resume
  | 5 => some .Pause
  | _ => none

namespace UGlobalMachineState

/-- Source `UGlobalMachineState::Pushed`: `checkNoEntry()`, fatal. -/
def Pushed (_s : UMachineState) (_w : World) : Option (UMachineState × World) :=
  none

/-- Source `UGlobalMachineState::Popped`: `checkNoEntry()`, fatal. -/
def Popped (_s : UMachineState) (_w : World) : Option (UMachineState × World) :=
  none

/-- Source `UGlobalMachineState::Paused`: `checkNoEntry()`, fatal. -/
def Paused (_s : UMachineState) (_w : World) : Option (UMachineState × World) :=
  none

/-- Source `UGlobalMachineState::Resumed`: `checkNoEntry()`, fatal. -/
def Resumed (_s : UMachineState) (_w : World) : Option (UMachineState × World) :=
  none

end UGlobalMachineState

namespace UMachineState

/-- Virtual call of `Pushed` on the object: the override when it is a global state. -/
def callPushed (s : UMachineState) (w : World) : Option (UMachineState × World) :=
  if s.bGlobal then UGlobalMachineState.Pushed s w else some (s.Pushed w)

/-- Virtual call of `Popped` on the object: the override when it is a global state. -/
def callPopped (s : UMachineState) (w : World) : Option (UMachineState × World) :=
  if s.bGlobal then UGlobalMachineState.Popped s w else some (s.Popped w)

/-- Virtual call of `Paused` on the object: the override when it is a global state. -/
def callPaused (s : UMachineState) (w : World) : Option (UMachineState × World) :=
  if s.bGlobal then UGlobalMachineState.Paused s w else some (s.Paused w)

/-- Virtual call of `Resumed` on the object: the override when it is a global state. -/
def callResumed (s : UMachineState) (w : World) : Option (UMachineState × World) :=
  if s.bGlobal then UGlobalMachineState.Resumed s w else some (s.Resumed w)

/-- The six hooks as `OnStateAction` calls them. They are virtual: `UGlobalMachineState`
overrides four of them, and any state class derived from `UMachineState` may override each.
A hook gets the object and the world as they are when it is called and returns them as it
leaves them; `none` is a fatal hook. -/
structure Hooks where
  Begin : UMachineState → World → Option Nat → Option (UMachineState × World)
  End : UMachineState → World → Option Nat → Option (UMachineState × World)
  Pushed : UMachineState → World → Option (UMachineState × World)
  Popped : UMachineState → World → Option (UMachineState × World)
  Paused : UMachineState → World → Option (UMachineState × World)
  Resumed : UMachineState → World → Option (UMachineState × World)

/-- The `switch` of `OnStateAction` over given hook implementations. -/
def Hooks.dispatch (v : Hooks) (s : UMachineState) (w : World) (OptionalData : Option Nat) :
    EStateAction → Option (UMachineState × World)
  | .Begin => v.Begin s w OptionalData
  | .End => v.End s w OptionalData
  | .Push => v.Pushed s w
  | .Pop => v.Popped s w
  | .Resume => v.Resumed s w
  | .Pause => v.Paused s w

/-- The hooks of the two classes of the source: the bodies of `UMachineState`, with the four
overrides of `UGlobalMachineState` when the object is a global state. -/
def classHooks : Hooks :=
  { Begin := fun s w PreviousState => some (s.Begin w PreviousState)
    End := fun s w NewState => some (s.End w NewState)
    Pushed := fun s w => s.callPushed w
    Popped := fun s w => s.callPopped w
    Paused := fun s w => s.callPaused w
    Resumed := fun s w => s.callResumed w }

/-- Source `UMachineState::OnStateAction`, its body over given implementations of the virtual
hooks. `StateAction` is the number held by the enumeration variable, `OptionalData` the class
passed through the `void*`. The `switch` calls the hook on the object and the world as they
are; a value outside the closed set takes the `default: checkNoEntry()` branch, which is
fatal; so is a fatal hook. Only when the hook has returned is
`OnStateActionDelegate.Broadcast(StateAction)` run, on the world the hook left. -/
def OnStateActionWith (v : Hooks) (s : UMachineState) (w : World) (StateAction : Nat)
    (OptionalData : Option Nat) : Option (UMachineState × World) :=
  match EStateAction.ofRaw StateAction with
  | none => none
  | some a =>
    match v.dispatch s w OptionalData a with
    | none => none
    | some (s1, w1) => some (s1, { w1 with broadcasts := w1.broadcasts ++ [a] })

/-- Source `UMachineState::OnStateAction` on an object of one of the two classes of the source:
the body above, the virtual calls going to the hooks of the class. -/
def OnStateAction (s : UMachineState) (w : World) (StateAction : Nat)
    (OptionalData : Option Nat) : Option (UMachineState × World) :=
  OnStateActionWith classHooks s w StateAction OptionalData

/-! ## Initialisation -/

/-- Source `UMachineState::CreateStateData`: both `check`s, then `NewObject` of the declared
class. The new payload object is named by the class it is an instance of. -/
def CreateStateData (s : UMachineState) : Option (Nat × UMachineState) :=
  if s.BaseStateData.isSome then none
  else match s.StateDataClass with
    | none => none
    | some cls => some (cls, { s with BaseStateData := some cls })

/-- Source `UMachineState::Initialize`. -/
def Initialize (s : UMachineState) : Option UMachineState :=
  match s.CreateStateData with
  | none => none
  | some (_, s1) => some s1

/-- Source `UMachineState::SetStateMachine`. `InStateMachine` is `none` for a pointer that is
null or otherwise not valid. -/
def SetStateMachine (s : UMachineState) (InStateMachine : Option Nat) :
    Option UMachineState :=
  if s.StateMachine.isSome then none
  else match InStateMachine with
    | none => none
    | some m => Initialize { s with StateMachine := some m }

end UMachineState

/-- One of the two binding and initialisation calls. -/
inductive InitCall where
  | SetStateMachine (InStateMachine : Option Nat)
  | Initialize
deriving DecidableEq, Repr

/-- The object after one binding or initialisation call; `none` when the call is fatal. -/
def InitCall.step (s : UMachineState) : InitCall → Option UMachineState
  | .SetStateMachine InStateMachine => s.SetStateMachine InStateMachine
  | .Initialize => s.Initialize

/-- The object after a sequence of binding and initialisation calls, none of them fatal. -/
def InitCall.run : List InitCall → UMachineState → Option UMachineState
  | [], s => some s
  | c :: rest, s =>
    match c.step s with
    | none => none
    | some s1 => InitCall.run rest s1

/-! ## The orchestrator, as far as the state asks it -/

/-- Modelled from the spec: the orchestrator `UFiniteStateMachine`, whose source is not at hand:
the stack of state classes, innermost-active last, and the set of global state classes. -/
structure UFiniteStateMachine where
  Stack : List Nat
  GlobalStates : List Nat
deriving DecidableEq, Repr

/-- The class on top of the stack, if any. -/
def UFiniteStateMachine.top (m : UFiniteStateMachine) : Option Nat :=
  m.Stack.getLast?

/-- Modelled from the spec: `isInState(descriptor)`, the stack-top or global-set membership
check of the orchestrator. -/
def UFiniteStateMachine.IsInState (m : UFiniteStateMachine) (InStateClass : Nat) : Bool :=
  decide (m.top = some InStateClass) || decide (InStateClass ∈ m.GlobalStates)

/-- Source `UMachineState::IsStateActive`: `StateMachine->IsInState(GetClass())`. `machines`
gives the orchestrator object behind a reference; `none` is the fatal outcome of going through
a reference that is null or dangling. -/
def UMachineState.IsStateActive (s : UMachineState)
    (machines : Nat → Option UFiniteStateMachine) : Option Bool :=
  match s.StateMachine with
  | none => none
  | some ref =>
    match machines ref with
    | none => none
    | some m => some (m.IsInState s.Class)

/-! ## Sequences of calls -/

/-- One call on a machine state, or one scheduling tick of the world around it. -/
inductive Op where
  | RegisterLabel (Label : FGameplayTag) (Callback : FLabelSignature)
  | GotoLabel (Label : FGameplayTag)
  | Tick
  | StopRunningLabels
  | StopLatentExecution_Implementation
  | Begin (PreviousState : Option Nat)
  | End (NewState : Option Nat)
  | Pushed
  | Popped
  | Paused
  | Resumed
  | OnStateAction (StateAction : Nat) (OptionalData : Option Nat)
  | NextTick
deriving DecidableEq, Repr

/-- The object and the world after one call; `none` when the call is fatal. Hooks are called
virtually. -/
def Op.step (s : UMachineState) (w : World) : Op → Option (UMachineState × World)
  | .RegisterLabel Label Callback => some ((s.RegisterLabel Label Callback).2, w)
  | .GotoLabel Label => some ((s.GotoLabel Label).2, w)
  | .Tick => s.Tick w
  | .StopRunningLabels => some (s.StopRunningLabels w).2
  | .StopLatentExecution_Implementation => some (s.StopLatentExecution_Implementation w).2
  | .Begin PreviousState => some (s.Begin w PreviousState)
  | .End NewState => some (s.End w NewState)
  | .Pushed => s.callPushed w
  | .Popped => s.callPopped w
  | .Paused => s.callPaused w
  | .Resumed => s.callResumed w
  | .OnStateAction StateAction OptionalData => s.OnStateAction w StateAction OptionalData
  | .NextTick => (w.NextTick).map (fun w1 => (s, w1))

/-- The object and the world after a sequence of calls, none of them fatal. -/
def Op.run : List Op → UMachineState → World → Option (UMachineState × World)
  | [], s, w => some (s, w)
  | op :: rest, s, w =>
    match op.step s w with
    | none => none
    | some (s1, w1) => Op.run rest s1 w1

/-- Number of `GotoLabel` calls in a sequence. -/
def Op.gotos : List Op → Nat
  | [] => 0
  | .GotoLabel _ :: rest => Op.gotos rest + 1
  | _ :: rest => Op.gotos rest

/-- Number of tracked handles that do not report done. -/
def UMachineState.notDone (s : UMachineState) (w : World) : Nat :=
  s.RunningLabelCoroutines.countP (fun h => !w.IsDone h)

/-- The object with the same contents, as an ordinary state (`false`) or as a global state
(`true`). -/
def UMachineState.withGlobal (s : UMachineState) (b : Bool) : UMachineState :=
  { s with bGlobal := b }

/-- The label table is well formed: every entry is bound, the active label is registered, and
so is the `Default` label. -/
def UMachineState.LabelsWellFormed (s : UMachineState) : Prop :=
  (∀ L f, TMap.Find s.RegisteredLabels L = some f → f.IsBound = true) ∧
  s.ContainsLabel s.ActiveLabel = true ∧
  s.ContainsLabel TAG_StateMachine_Label_Default = true

/-- Every entry of the label table of `s` is an entry of the label table of `s1`. -/
def UMachineState.KeepsLabels (s s1 : UMachineState) : Prop :=
  ∀ L f, TMap.Find s.RegisteredLabels L = some f → TMap.Find s1.RegisteredLabels L = some f

/-- The number of tracked handles, plus one while the active label is still to be started. -/
def UMachineState.armed (s : UMachineState) : Nat :=
  s.RunningLabelCoroutines.length + (if s.bLabelActivated then 0 else 1)

/-- What one call may do to the label table, the active label and the running set: the table
is kept or gains one bound entry under a fresh key; the active label is kept, or reset to
`Default`, or set to a registered label; `armed` grows by at most `k`. -/
def UMachineState.StepOk (s s1 : UMachineState) (k : Nat) : Prop :=
  (s1.RegisteredLabels = s.RegisteredLabels ∨
    ∃ L cb, TMap.Find s.RegisteredLabels L = none ∧
      s1.RegisteredLabels = TMap.Add s.RegisteredLabels L (.callbackWrapper cb)) ∧
  (s1.ActiveLabel = s.ActiveLabel ∨ s1.ActiveLabel = TAG_StateMachine_Label_Default ∨
    s.ContainsLabel s1.ActiveLabel = true) ∧
  s1.armed ≤ s.armed + k

/-! ## Concrete data used in examples -/

/-- The label tag `StateMachine.Label.Attack`. -/
def tagAttack : FGameplayTag := ⟨["StateMachine", "Label", "Attack"]⟩

/-- A tag outside the label namespace. -/
def tagForeign : FGameplayTag := ⟨["Ability", "Fire"]⟩

/-- A user routine that suspends twice before it finishes. -/
def routineAttack : LabelRoutine := { id := 7, suspensions := 2, aborts := false }

/-- Another user routine. -/
def routineOther : LabelRoutine := { id := 8, suspensions := 1, aborts := false }

/-- A world with nothing in it. -/
def emptyWorld : World :=
  { coroutines := [], labelInvocations := [], latentInvocations := [], broadcasts := [] }

/-- A freshly constructed ordinary state of class `1`. -/
def freshState : UMachineState := UMachineState.ctor 1 false

/-- The fresh state after `RegisterLabel(Attack, routineAttack)` and `GotoLabel(Attack)`. -/
def attackState : UMachineState :=
  ((freshState.RegisterLabel tagAttack (.routine routineAttack)).2.GotoLabel tagAttack).2

/-- The object after `Tick` on `attackState`: the label is activated and one handle is
tracked. -/
def attackTicked : UMachineState :=
  { attackState with bLabelActivated := true, RunningLabelCoroutines := [0] }

/-- The state running `Attack` with three latent cancellers stored, the second one unbound. -/
def busyState : UMachineState :=
  { attackTicked with RunningLatentExecutions := [some 5, none, some 6] }

/-- The world after `Tick` on `attackState` in the empty world: one coroutine, suspended at the
forced yield of the wrapper. -/
def attackWorld : World :=
  { emptyWorld with
    coroutines := [{ bCancelled := false, frame := .atForcedYield (.routine routineAttack) }] }

/-- The fresh state after `Tick`: the `Default` label is activated, one handle is tracked. -/
def defaultTicked : UMachineState :=
  { freshState with bLabelActivated := true, RunningLabelCoroutines := [0] }

/-- The world after `Tick` on the fresh state in the empty world: the coroutine of the wrapper
around `Label_Default`, suspended at the forced yield. -/
def defaultWorld : World :=
  { emptyWorld with
    coroutines :=
      [{ bCancelled := false, frame := .atForcedYield (.routine UMachineState.Label_Default) }] }

/-- The label tag `StateMachine.Label.Crash`. -/
def tagCrash : FGameplayTag := ⟨["StateMachine", "Label", "Crash"]⟩

/-- A user routine that suspends once and then aborts. -/
def routineCrash : LabelRoutine := { id := 9, suspensions := 1, aborts := true }

/-- The fresh state after `RegisterLabel(Crash, routineCrash)`, `GotoLabel(Crash)`, `Tick`: the
handle `0` is tracked. -/
def crashedState : UMachineState :=
  { ((freshState.RegisterLabel tagCrash (.routine routineCrash)).2.GotoLabel tagCrash).2 with
    bLabelActivated := true, RunningLabelCoroutines := [0] }

/-- The world two scheduling ticks later: the routine was invoked and has aborted; its
coroutine is finished, unsuccessfully. -/
def crashedWorld : World :=
  { emptyWorld with coroutines := [{ bCancelled := false, frame := .done false }],
                    labelInvocations := [9] }

/-- An orchestrator with state class `1` on top of the stack and the global state class `2`. -/
def machineWithGlobal : UFiniteStateMachine :=
  { Stack := [3, 1], GlobalStates := [2] }

/-- The references to orchestrators in the examples: reference `0` is `machineWithGlobal`. -/
def exampleMachines : Nat → Option UFiniteStateMachine
  | 0 => some machineWithGlobal
  | _ => none

/-- A global state of class `2`, bound to the orchestrator behind reference `0`. -/
def boundGlobalState : UMachineState :=
  { UMachineState.ctor 2 true with StateMachine := some 0, BaseStateData := some 0 }

/-- An ordinary state of class `1`, bound to the orchestrator behind reference `0`. -/
def boundTopState : UMachineState :=
  { UMachineState.ctor 1 false with StateMachine := some 0, BaseStateData := some 0 }

/-- The label tag `StateMachine.Label.Other`. -/
def tagOther : FGameplayTag := ⟨["StateMachine", "Label", "Other"]⟩

/-- Calls after which two labels of one state run side by side: `Attack` and `Other` are
registered, `Attack` is started and resumed once, then `Other` is made the active label,
started and resumed. -/
def parallelOps : List Op :=
  [.RegisterLabel tagAttack (.routine routineAttack),
   .RegisterLabel tagOther (.routine routineOther),
   .GotoLabel tagAttack, .Tick, .NextTick, .GotoLabel tagOther, .Tick, .NextTick]

/-- The object after `parallelOps` on the fresh state: both handles are tracked. -/
def parallelState : UMachineState :=
  { ((freshState.RegisterLabel tagAttack (.routine routineAttack)).2.RegisterLabel tagOther
      (.routine routineOther)).2 with
    ActiveLabel := tagOther, bLabelActivated := true, RunningLabelCoroutines := [0, 1] }

/-- The world after `parallelOps` from the empty world: both user routines have been invoked
and are suspended inside their bodies. -/
def parallelWorld : World :=
  { emptyWorld with
    coroutines := [{ bCancelled := false, frame := .inCallback 1 false },
                   { bCancelled := false, frame := .inCallback 1 false }],
    labelInvocations := [7, 8] }

/-- The hooks of a derived state class whose `Begin` asks for another state to be pushed on top
of it: by the time that `Begin` returns, `Pause` has been broadcast on the state. The other
hooks are those of `UMachineState`. -/
def pushingHooks : UMachineState.Hooks :=
  { UMachineState.classHooks with
    Begin := fun s w _ => some (s, { w with broadcasts := w.broadcasts ++ [.Pause] }) }

/-! ## Lemmas on the label table -/

theorem TMap.Find_Add_self {K V : Type} [DecidableEq K] (m : List (K × V)) (k : K) (v : V) :
    TMap.Find (TMap.Add m k v) k = some v := by
  induction m with
  | nil => simp [TMap.Add, TMap.Find]
  | cons p rest ih =>
    obtain ⟨k0, v0⟩ := p
    by_cases h : k0 = k
    · simp [TMap.Add, TMap.Find, h]
    · simp [TMap.Add, TMap.Find, h, ih]

theorem TMap.Find_Add_other {K V : Type} [DecidableEq K] (m : List (K × V)) (k k1 : K) (v : V)
    (hne : k1 ≠ k) : TMap.Find (TMap.Add m k v) k1 = TMap.Find m k1 := by
  induction m with
  | nil =>
    have h : ¬ k = k1 := fun e => hne e.symm
    simp [TMap.Add, TMap.Find, h]
  | cons p rest ih =>
    obtain ⟨k0, v0⟩ := p
    by_cases h : k0 = k
    · subst h
      have h1 : ¬ k0 = k1 := fun e => hne e.symm
      simp [TMap.Add, TMap.Find, h1]
    · by_cases h2 : k0 = k1
      · subst h2
        simp [TMap.Add, TMap.Find, h]
      · simp [TMap.Add, TMap.Find, h, h2, ih]

/-! ## Lemmas on cancellation -/

theorem World.Cancel_getElem? (w : World) (h i : Nat) :
    (w.Cancel h).coroutines[i]? =
      (w.coroutines[i]?).map (fun c => if i = h then c.cancel else c) := by
  unfold World.Cancel
  cases hc : w.coroutines[h]? with
  | none =>
    by_cases e : i = h
    · subst e
      simp [hc]
    · cases hi : w.coroutines[i]? <;> simp [hi, e]
  | some c =>
    by_cases e : i = h
    · subst e
      simp [List.getElem?_set_self', hc, Coroutine.cancel]
    · have e1 : h ≠ i := fun x => e x.symm
      cases hi : w.coroutines[i]? <;> simp [List.getElem?_set_ne e1, hi, e]

theorem World.Cancel_IsDone (w : World) (h i : Nat) :
    (w.Cancel h).IsDone i = w.IsDone i := by
  unfold World.IsDone
  rw [World.Cancel_getElem?]
  cases hi : w.coroutines[i]? with
  | none => rfl
  | some c =>
    by_cases e : i = h <;> simp [e, Coroutine.cancel, Coroutine.IsDone]

theorem World.Cancel_traces (w : World) (h : Nat) :
    (w.Cancel h).labelInvocations = w.labelInvocations ∧
    (w.Cancel h).latentInvocations = w.latentInvocations ∧
    (w.Cancel h).broadcasts = w.broadcasts ∧
    (w.Cancel h).coroutines.length = w.coroutines.length := by
  unfold World.Cancel
  cases hc : w.coroutines[h]? <;> simp

/-- Cancelling the handles of a list one after the other. -/
theorem World.foldl_Cancel_getElem? (l : List Nat) (w : World) (i : Nat) :
    (l.foldl World.Cancel w).coroutines[i]? =
      (w.coroutines[i]?).map (fun c => if i ∈ l then c.cancel else c) := by
  induction l generalizing w with
  | nil => simp
  | cons h rest ih =>
    rw [List.foldl_cons, ih, World.Cancel_getElem?]
    cases hi : w.coroutines[i]? with
    | none => rfl
    | some c =>
      by_cases e : i = h <;> by_cases m : i ∈ rest <;> simp [e, m, Coroutine.cancel]

theorem World.foldl_Cancel_IsDone (l : List Nat) (w : World) (i : Nat) :
    (l.foldl World.Cancel w).IsDone i = w.IsDone i := by
  induction l generalizing w with
  | nil => rfl
  | cons h rest ih => rw [List.foldl_cons, ih, World.Cancel_IsDone]

theorem World.foldl_Cancel_traces (l : List Nat) (w : World) :
    (l.foldl World.Cancel w).labelInvocations = w.labelInvocations ∧
    (l.foldl World.Cancel w).latentInvocations = w.latentInvocations ∧
    (l.foldl World.Cancel w).broadcasts = w.broadcasts ∧
    (l.foldl World.Cancel w).coroutines.length = w.coroutines.length := by
  induction l generalizing w with
  | nil => simp
  | cons h rest ih =>
    rw [List.foldl_cons]
    have h1 := ih (w.Cancel h)
    have h2 := World.Cancel_traces w h
    exact ⟨h1.1.trans h2.1, h1.2.1.trans h2.2.1, h1.2.2.1.trans h2.2.2.1,
      h1.2.2.2.trans h2.2.2.2⟩

/-! ## Lemmas on the scheduler -/

theorem Coroutine.resume_quiet (c : Coroutine) (h : c.quiet = true) :
    ∃ c1, c.resume = some (c1, []) ∧ c1.quiet = true := by
  obtain ⟨b, fr⟩ := c
  cases fr with
  | done ok => exact ⟨_, rfl, h⟩
  | atForcedYield cb =>
    cases b with
    | false => simp [Coroutine.quiet, Coroutine.IsDone] at h
    | true => exact ⟨_, rfl, rfl⟩
  | inCallback left aborts =>
    cases b with
    | false => simp [Coroutine.quiet, Coroutine.IsDone] at h
    | true => exact ⟨_, rfl, rfl⟩

theorem World.resumeAll_quiet (cs : List Coroutine) (h : ∀ c ∈ cs, c.quiet = true) :
    ∃ cs1, World.resumeAll cs = some (cs1, []) ∧ ∀ c ∈ cs1, c.quiet = true := by
  induction cs with
  | nil => exact ⟨[], rfl, by simp⟩
  | cons c rest ih =>
    obtain ⟨c1, hc1, hq1⟩ := Coroutine.resume_quiet c (h c (List.mem_cons_self _ _))
    obtain ⟨rest1, hr1, hq⟩ := ih (fun x hx => h x (List.mem_cons_of_mem _ hx))
    refine ⟨c1 :: rest1, ?_, ?_⟩
    · simp [World.resumeAll, hc1, hr1]
    · intro x hx
      rcases List.mem_cons.1 hx with e | e
      · rw [e]
        exact hq1
      · exact hq x e

theorem World.NextTicks_quiet (n : Nat) (w : World) (h : ∀ c ∈ w.coroutines, c.quiet = true) :
    ∃ w1, w.NextTicks n = some w1 ∧ w1.labelInvocations = w.labelInvocations := by
  induction n generalizing w with
  | zero => exact ⟨w, rfl, rfl⟩
  | succ n ih =>
    obtain ⟨cs1, hr, hq⟩ := World.resumeAll_quiet w.coroutines h
    obtain ⟨w2, h2, hi⟩ := ih { w with coroutines := cs1 } hq
    refine ⟨w2, ?_, hi⟩
    simp only [World.NextTicks, World.NextTick, hr, List.append_nil]
    exact h2

theorem World.resumeAll_done (cs : List Coroutine) (h : ∀ c ∈ cs, c.IsDone = true) :
    World.resumeAll cs = some (cs, []) := by
  induction cs with
  | nil => rfl
  | cons c rest ih =>
    have hc := h c (List.mem_cons_self _ _)
    have hr := ih (fun x hx => h x (List.mem_cons_of_mem _ hx))
    obtain ⟨b, fr⟩ := c
    cases fr with
    | done ok => simp [World.resumeAll, Coroutine.resume, hr]
    | atForcedYield cb => simp [Coroutine.IsDone] at hc
    | inCallback left aborts => simp [Coroutine.IsDone] at hc

theorem World.resumeAll_append (xs ys xs1 ys1 : List Coroutine) (i j : List Nat)
    (hx : World.resumeAll xs = some (xs1, i)) (hy : World.resumeAll ys = some (ys1, j)) :
    World.resumeAll (xs ++ ys) = some (xs1 ++ ys1, i ++ j) := by
  induction xs generalizing xs1 i with
  | nil =>
    simp only [World.resumeAll, Option.some.injEq, Prod.mk.injEq] at hx
    obtain ⟨e1, e2⟩ := hx
    subst e1 e2
    simpa using hy
  | cons c rest ih =>
    simp only [World.resumeAll] at hx
    cases hc : c.resume with
    | none => simp [hc] at hx
    | some p =>
      obtain ⟨c1, ids⟩ := p
      cases hr : World.resumeAll rest with
      | none => simp [hc, hr] at hx
      | some q =>
        obtain ⟨rest1, ids1⟩ := q
        simp only [hc, hr, Option.some.injEq, Prod.mk.injEq] at hx
        obtain ⟨e1, e2⟩ := hx
        subst e1 e2
        simp [World.resumeAll, hc, ih rest1 ids1 hr, List.append_assoc]

/-- After cancelling the handles of `l` in a world made of finished coroutines followed by one
more coroutine whose handle is in `l`, no coroutine will run anything more. -/
theorem World.quiet_after_Cancel (w : World) (c0 : Coroutine) (l : List Nat)
    (hdone : ∀ c ∈ w.coroutines, c.IsDone = true) (hl : w.coroutines.length ∈ l) :
    ∀ c ∈ (l.foldl World.Cancel { w with coroutines := w.coroutines ++ [c0] }).coroutines,
      c.quiet = true := by
  intro c hc
  obtain ⟨i, hi⟩ := List.mem_iff_getElem?.1 hc
  rw [World.foldl_Cancel_getElem?] at hi
  simp only at hi
  by_cases hlt : i < w.coroutines.length
  · rw [List.getElem?_append_left hlt, List.getElem?_eq_getElem hlt] at hi
    have hd := hdone _ (List.getElem_mem hlt)
    simp only [Option.map_some', Option.some.injEq] at hi
    rw [← hi]
    have hq : ∀ x : Coroutine, x.IsDone = true → x.cancel.quiet = true ∧ x.quiet = true := by
      intro x hx
      simp [Coroutine.quiet, Coroutine.cancel, Coroutine.IsDone] at hx ⊢
      simp [hx]
    by_cases m : i ∈ l
    · simpa [m] using (hq _ hd).1
    · simpa [m] using (hq _ hd).2
  · have hge : w.coroutines.length ≤ i := Nat.le_of_not_lt hlt
    rw [List.getElem?_append_right hge] at hi
    by_cases e : i = w.coroutines.length
    · subst e
      simp only [Nat.sub_self, List.getElem?_cons_zero, Option.map_some', hl, if_true,
        Option.some.injEq] at hi
      rw [← hi]
      simp [Coroutine.quiet, Coroutine.cancel]
    · have hpos : i - w.coroutines.length ≠ 0 := by omega
      obtain ⟨k, hk⟩ := Nat.exists_eq_succ_of_ne_zero hpos
      simp [hk] at hi

namespace UMachineState

/-- The loop of `StopRunningLabels` cancels every handle of the list and counts those that are
not done. -/
theorem StopRunningLabels_loop_eq (l : List FAsyncCoroutine) (w : World) (n : Nat) :
    StopRunningLabels.loop l w n =
      (l.foldl World.Cancel w, n + l.countP (fun h => !w.IsDone h)) := by
  induction l generalizing w n with
  | nil => simp [StopRunningLabels.loop]
  | cons h rest ih =>
    rw [StopRunningLabels.loop, ih]
    have hd : (fun x => !(w.Cancel h).IsDone x) = (fun x => !w.IsDone x) := by
      funext x
      rw [World.Cancel_IsDone]
    rw [hd, World.Cancel_IsDone, List.countP_cons]
    cases w.IsDone h
    · simp only [Bool.not_false, if_true]
      simp only [Nat.add_assoc, Nat.add_comm, List.foldl_cons]
    · simp

/-- Closed form of `StopRunningLabels`. -/
theorem StopRunningLabels_eq (s : UMachineState) (w : World) :
    s.StopRunningLabels w =
      (s.RunningLabelCoroutines.countP (fun h => !w.IsDone h),
       { s with RunningLabelCoroutines := [] },
       s.RunningLabelCoroutines.foldl World.Cancel w) := by
  simp [StopRunningLabels, StopRunningLabels_loop_eq]

/-- The loop of the latent sweep invokes the bound cancellers in stored order and counts
them. -/
theorem StopLatentExecution_loop_eq (l : List FSimpleDelegate) (w : World)
    (n : Nat) :
    StopLatentExecution_Implementation.loop l w n =
      ({ w with latentInvocations := w.latentInvocations ++ l.filterMap id },
       n + l.countP (fun d => d.isSome)) := by
  induction l generalizing w n with
  | nil => simp [StopLatentExecution_Implementation.loop]
  | cons d rest ih =>
    rw [StopLatentExecution_Implementation.loop, ih]
    cases d with
    | none => simp [World.ExecuteIfBound]
    | some id => simp [World.ExecuteIfBound, List.countP_cons]; omega

/-- The latent sweep in closed form. -/
theorem StopLatentExecution_Implementation_eq (s : UMachineState) (w : World) :
    s.StopLatentExecution_Implementation w =
      (s.RunningLatentExecutions.countP (fun d => d.isSome),
       { s with RunningLatentExecutions := [] },
       { w with latentInvocations :=
                  w.latentInvocations ++ s.RunningLatentExecutions.filterMap id }) := by
  simp [StopLatentExecution_Implementation, StopLatentExecution_loop_eq]

/-- What `RegisterLabel` does when all three checks pass. -/
theorem RegisterLabel_of_checks (s : UMachineState) (L : FGameplayTag) (cb : FLabelSignature)
    (hTag : IsLabelTagCorrect L = true) (hBound : cb.IsBound = true)
    (hFresh : s.ContainsLabel L = false) :
    s.RegisterLabel L cb =
      (true, { s with RegisteredLabels :=
                        TMap.Add s.RegisteredLabels L (.callbackWrapper cb) }) := by
  simp [RegisterLabel, hTag, hBound, hFresh]

/-- The three checks of `RegisterLabel`, read off its result. -/
theorem RegisterLabel_true_iff (s : UMachineState) (L : FGameplayTag) (cb : FLabelSignature) :
    (s.RegisterLabel L cb).1 = true ↔
      (IsLabelTagCorrect L = true ∧ cb.IsBound = true ∧ s.ContainsLabel L = false) := by
  unfold RegisterLabel
  cases hT : IsLabelTagCorrect L <;> cases hB : cb.IsBound <;>
    cases hC : s.ContainsLabel L <;> simp

/-- The entry of a label that has just been registered is the wrapper around the callback. -/
theorem Find_RegisterLabel_self (s : UMachineState) (L : FGameplayTag) (cb : FLabelSignature)
    (hok : (s.RegisterLabel L cb).1 = true) :
    TMap.Find (s.RegisterLabel L cb).2.RegisteredLabels L = some (.callbackWrapper cb) := by
  obtain ⟨hT, hB, hC⟩ := (RegisterLabel_true_iff s L cb).1 hok
  rw [RegisterLabel_of_checks s L cb hT hB hC]
  simp [TMap.Find_Add_self]

/-- Invocations of one canceller among the bound records of a list. -/
theorem count_filterMap_id (l : List FSimpleDelegate) (k : Nat) :
    (l.filterMap id).count k = l.count (some k) := by
  induction l with
  | nil => rfl
  | cons d rest ih =>
    cases d with
    | none => simp [List.filterMap_cons, List.count_cons, ih]
    | some j =>
      by_cases e : j = k
      · simp [List.filterMap_cons, List.count_cons, ih, e]
      · simp [List.filterMap_cons, List.count_cons, ih, e]

/-- Executing a bound delegate is never fatal. -/
theorem start_of_IsBound_aux (f : FLabelSignature) (hB : f.IsBound = true) :
    ∃ fr ids, f.start = some (fr, ids) := by
  cases f with
  | unbound => exact Bool.noConfusion hB
  | routine r => exact ⟨_, _, rfl⟩
  | callbackWrapper cb => exact ⟨_, _, rfl⟩

/-- Effect of `Tick` on a state whose active label is not yet activated and is registered with a bound
delegate: the delegate's coroutine is started and its handle tracked. -/
theorem Tick_start (s : UMachineState) (w : World) (f : FLabelSignature) (fr : Frame)
    (ids : List Nat) (hA : s.bLabelActivated = false)
    (hF : TMap.Find s.RegisteredLabels s.ActiveLabel = some f) (hB : f.IsBound = true)
    (hS : f.start = some (fr, ids)) :
    s.Tick w = some
      ({ s with bLabelActivated := true,
                RunningLabelCoroutines := s.RunningLabelCoroutines ++ [w.coroutines.length] },
       { w with coroutines := w.coroutines ++ [{ bCancelled := false, frame := fr }],
                labelInvocations := w.labelInvocations ++ ids }) := by
  simp [Tick, hA, hF, hB, FLabelSignature.Execute, hS]

/-! ## Claims -/

/-- C1: for every state, every label `L` in the label namespace that is not yet registered, and
every bound callback, `RegisterLabel L cb` returns true, afterwards `ContainsLabel L` is true,
and every label registered before is still registered (with the callback it had; the entry of
`L` is the wrapper around `cb`). -/
theorem RegisterLabel_fresh (s : UMachineState) (L : FGameplayTag) (cb : FLabelSignature)
    (hTag : IsLabelTagCorrect L = true) (hBound : cb.IsBound = true)
    (hFresh : s.ContainsLabel L = false) :
    (s.RegisterLabel L cb).1 = true ∧
    (s.RegisterLabel L cb).2.ContainsLabel L = true ∧
    (∀ L1, s.ContainsLabel L1 = true → (s.RegisterLabel L cb).2.ContainsLabel L1 = true) ∧
    TMap.Find (s.RegisterLabel L cb).2.RegisteredLabels L = some (.callbackWrapper cb) ∧
    (∀ L1, L1 ≠ L → TMap.Find (s.RegisterLabel L cb).2.RegisteredLabels L1 =
      TMap.Find s.RegisteredLabels L1) := by
  rw [RegisterLabel_of_checks s L cb hTag hBound hFresh]
  refine ⟨rfl, ?_, ?_, ?_, ?_⟩
  · simp [ContainsLabel, TMap.Find_Add_self]
  · intro L1 h1
    have hne : L1 ≠ L := by
      intro e
      rw [e, hFresh] at h1
      exact Bool.noConfusion h1
    simpa [ContainsLabel, TMap.Find_Add_other _ _ _ _ hne] using h1
  · simp [TMap.Find_Add_self]
  · intro L1 hne
    simp [TMap.Find_Add_other _ _ _ _ hne]

/-- Witness of C1: registering `StateMachine.Label.Attack` on a freshly constructed state. -/
theorem RegisterLabel_fresh_witness :
    (freshState.RegisterLabel tagAttack (.routine routineAttack)).1 = true ∧
    (freshState.RegisterLabel tagAttack (.routine routineAttack)).2.ContainsLabel tagAttack
      = true ∧
    (freshState.RegisterLabel tagAttack (.routine routineAttack)).2.ContainsLabel
      TAG_StateMachine_Label_Default = true :=
  have h := RegisterLabel_fresh freshState tagAttack (.routine routineAttack)
    (by decide) (by decide) (by decide)
  ⟨h.1, h.2.1, h.2.2.1 TAG_StateMachine_Label_Default (by decide)⟩

/-- C2: `RegisterLabel L cb` returns false exactly when `L` is outside the label namespace, or
`cb` is unbound, or `L` is already registered; whenever it returns false the object is
unchanged (the function does not touch anything outside the object); and after a successful
registration of `L` a second registration of `L`, with any callback, returns false, changes
nothing, and the entry of `L` is still the wrapper around the first callback. -/
theorem RegisterLabel_rejects (s : UMachineState) (L : FGameplayTag) (cb : FLabelSignature) :
    ((s.RegisterLabel L cb).1 = false ↔
      (IsLabelTagCorrect L = false ∨ cb.IsBound = false ∨ s.ContainsLabel L = true)) ∧
    ((s.RegisterLabel L cb).1 = false → (s.RegisterLabel L cb).2 = s) ∧
    ((s.RegisterLabel L cb).1 = true → ∀ cb2 : FLabelSignature,
      ((s.RegisterLabel L cb).2.RegisterLabel L cb2).1 = false ∧
      ((s.RegisterLabel L cb).2.RegisterLabel L cb2).2 = (s.RegisterLabel L cb).2 ∧
      TMap.Find ((s.RegisterLabel L cb).2.RegisterLabel L cb2).2.RegisteredLabels L =
        some (.callbackWrapper cb)) := by
  refine ⟨?_, ?_, ?_⟩
  · unfold RegisterLabel
    cases hT : IsLabelTagCorrect L <;> cases hB : cb.IsBound <;>
      cases hC : s.ContainsLabel L <;> simp
  · unfold RegisterLabel
    cases hT : IsLabelTagCorrect L <;> cases hB : cb.IsBound <;>
      cases hC : s.ContainsLabel L <;> simp
  · intro hok cb2
    obtain ⟨hT, hB, hC⟩ := (RegisterLabel_true_iff s L cb).1 hok
    have h1 := Find_RegisterLabel_self s L cb hok
    have hsecond : ((s.RegisterLabel L cb).2.RegisterLabel L cb2) =
        (false, (s.RegisterLabel L cb).2) := by
      generalize (s.RegisterLabel L cb).2 = s1 at h1 ⊢
      have hc : s1.ContainsLabel L = true := by simp [ContainsLabel, h1]
      unfold RegisterLabel
      cases hB2 : cb2.IsBound <;> simp [hT, hc]
    rw [hsecond]
    exact ⟨rfl, rfl, h1⟩

/-- Witness of C2: on a freshly constructed state a tag outside the namespace is rejected and
the state is unchanged; `Attack` is accepted, and registering it again with another callback is
rejected and keeps the first callback. -/
theorem RegisterLabel_rejects_witness :
    (freshState.RegisterLabel tagForeign (.routine routineAttack)).1 = false ∧
    (freshState.RegisterLabel tagForeign (.routine routineAttack)).2 = freshState ∧
    (freshState.RegisterLabel tagAttack (.routine routineAttack)).1 = true ∧
    ((freshState.RegisterLabel tagAttack (.routine routineAttack)).2.RegisterLabel tagAttack
        (.routine routineOther)).1 = false ∧
    TMap.Find ((freshState.RegisterLabel tagAttack (.routine routineAttack)).2.RegisterLabel
        tagAttack (.routine routineOther)).2.RegisteredLabels tagAttack =
      some (.callbackWrapper (.routine routineAttack)) :=
  have hF := RegisterLabel_rejects freshState tagForeign (.routine routineAttack)
  have hA := RegisterLabel_rejects freshState tagAttack (.routine routineAttack)
  have h2 := hA.2.2 (by decide) (.routine routineOther)
  ⟨by decide, hF.2.1 (by decide), by decide, h2.1, h2.2.2⟩

/-- C3: `End` and `Popped` set `ActiveLabel` to the Default label but do not write
`bLabelActivated`: it keeps the value it had. On a freshly constructed state on which `Attack`
was registered, made the active label and started by `Tick`, `End` leaves `ActiveLabel` at
Default with `bLabelActivated` still true (so does `Popped`), and a following `Tick` starts
nothing; `SetInitialLabel` and `GotoLabel`, the other two writers of `ActiveLabel`, clear the
flag. -/
theorem End_leaves_bLabelActivated :
    (∀ (s : UMachineState) (w : World) (n : Option Nat),
      (s.End w n).1.ActiveLabel = TAG_StateMachine_Label_Default ∧
      (s.End w n).1.bLabelActivated = s.bLabelActivated ∧
      (s.Popped w).1.ActiveLabel = TAG_StateMachine_Label_Default ∧
      (s.Popped w).1.bLabelActivated = s.bLabelActivated) ∧
    (attackState.Tick emptyWorld = some (attackTicked, attackWorld) ∧
      attackTicked.bLabelActivated = true ∧
      (attackTicked.End attackWorld none).1.ActiveLabel = TAG_StateMachine_Label_Default ∧
      (attackTicked.End attackWorld none).1.bLabelActivated = true ∧
      (attackTicked.Popped attackWorld).1.bLabelActivated = true ∧
      (attackTicked.End attackWorld none).1.Tick (attackTicked.End attackWorld none).2 =
        some (attackTicked.End attackWorld none) ∧
      (attackTicked.SetInitialLabel TAG_StateMachine_Label_Default).bLabelActivated = false ∧
      (attackTicked.GotoLabel TAG_StateMachine_Label_Default).2.bLabelActivated = false) := by
  refine ⟨?_, ?_⟩
  · intro s w n
    simp [End, Popped, StopRunningLabels_eq, StopLatentExecution_Implementation_eq]
  · decide

/-- C4: with `N` the number of tracked handles that are not done, `StopRunningLabels` returns
`N`, marks every tracked coroutine cancelled, empties the running set and changes nothing else
of the object; a second call right after returns 0 and changes nothing; on an empty running
set the call returns 0 and changes nothing. -/
theorem StopRunningLabels_spec (s : UMachineState) (w : World) :
    (s.StopRunningLabels w).1 = s.RunningLabelCoroutines.countP (fun h => !w.IsDone h) ∧
    (s.StopRunningLabels w).2.1 = { s with RunningLabelCoroutines := [] } ∧
    (∀ h ∈ s.RunningLabelCoroutines, ∀ c, w.coroutines[h]? = some c →
      (s.StopRunningLabels w).2.2.coroutines[h]? = some { c with bCancelled := true }) ∧
    (s.StopRunningLabels w).2.1.StopRunningLabels (s.StopRunningLabels w).2.2 =
      (0, (s.StopRunningLabels w).2.1, (s.StopRunningLabels w).2.2) ∧
    (s.RunningLabelCoroutines = [] → s.StopRunningLabels w = (0, s, w)) := by
  rw [StopRunningLabels_eq]
  refine ⟨rfl, rfl, ?_, ?_, ?_⟩
  · intro h hm c hc
    simp only [World.foldl_Cancel_getElem?, hc, hm, Option.map_some', if_true, Coroutine.cancel]
  · rw [StopRunningLabels_eq]
    simp
  · intro he
    cases s
    simp only at he
    subst he
    simp

/-- Witness of C4: the state with one running, not yet done label coroutine gives count 1 and
the coroutine is marked cancelled; on the fresh state, whose running set is empty, the call is
a no-op returning 0. -/
theorem StopRunningLabels_spec_witness :
    (attackTicked.StopRunningLabels attackWorld).1 = 1 ∧
    (attackTicked.StopRunningLabels attackWorld).2.2.coroutines[0]? =
      some { bCancelled := true, frame := .atForcedYield (.routine routineAttack) } ∧
    freshState.StopRunningLabels emptyWorld = (0, freshState, emptyWorld) :=
  have h := StopRunningLabels_spec attackTicked attackWorld
  ⟨h.1.trans (by decide),
   h.2.2.1 0 (by decide)
     { bCancelled := false, frame := .atForcedYield (.routine routineAttack) } (by decide),
   (StopRunningLabels_spec freshState emptyWorld).2.2.2.2 (by decide)⟩

/-- C5: for every state and every tag `L` that is not registered in it, in the label namespace
or not, `GotoLabel L` returns false and leaves the whole object unchanged (the function
touches nothing outside the object); and `GotoLabel L` returns true exactly when `L` is in the
label namespace and registered. -/
theorem GotoLabel_unregistered (s : UMachineState) (L : FGameplayTag) :
    (s.ContainsLabel L = false → s.GotoLabel L = (false, s)) ∧
    ((s.GotoLabel L).1 = true ↔ (IsLabelTagCorrect L = true ∧ s.ContainsLabel L = true)) := by
  unfold GotoLabel
  cases hT : IsLabelTagCorrect L <;> cases hC : s.ContainsLabel L <;> simp

/-- Witness of C5: `Attack` is in the namespace but not registered on the fresh state. -/
theorem GotoLabel_unregistered_witness :
    freshState.ContainsLabel tagAttack = false ∧
    freshState.GotoLabel tagAttack = (false, freshState) :=
  ⟨by decide, (GotoLabel_unregistered freshState tagAttack).1 (by decide)⟩

/-- C6: for every state and every registered label `L` in the label namespace, `GotoLabel L`
returns true, sets `ActiveLabel` to `L` and `bLabelActivated` to false, and changes nothing
else: the running-label set, the label table and the latent cancellers are as before. The
function takes no world: no coroutine is cancelled or otherwise touched. -/
theorem GotoLabel_registered (s : UMachineState) (L : FGameplayTag)
    (hTag : IsLabelTagCorrect L = true) (hReg : s.ContainsLabel L = true) :
    s.GotoLabel L = (true, { s with ActiveLabel := L, bLabelActivated := false }) ∧
    (s.GotoLabel L).2.ActiveLabel = L ∧
    (s.GotoLabel L).2.bLabelActivated = false ∧
    (s.GotoLabel L).2.RunningLabelCoroutines = s.RunningLabelCoroutines ∧
    (s.GotoLabel L).2.RegisteredLabels = s.RegisteredLabels ∧
    (s.GotoLabel L).2.RunningLatentExecutions = s.RunningLatentExecutions := by
  simp [GotoLabel, hTag, hReg]

/-- Witness of C6: from the state running `Attack`, `GotoLabel(Default)` switches the label and
keeps the running handle tracked. -/
theorem GotoLabel_registered_witness :
    (attackTicked.GotoLabel TAG_StateMachine_Label_Default).1 = true ∧
    (attackTicked.GotoLabel TAG_StateMachine_Label_Default).2.ActiveLabel =
      TAG_StateMachine_Label_Default ∧
    (attackTicked.GotoLabel TAG_StateMachine_Label_Default).2.RunningLabelCoroutines = [0] :=
  have h := GotoLabel_registered attackTicked TAG_StateMachine_Label_Default
    (by decide) (by decide)
  ⟨by rw [h.1], h.2.1, h.2.2.2.1.trans (by decide)⟩

/-- C7: on a state whose active label is registered (with a bound delegate, as `RegisterLabel`
stores it) and not yet activated, `Tick` succeeds, starts exactly one coroutine (the table of
coroutines grows by the one new entry), adds exactly its handle to the running set and sets
`bLabelActivated`; a second `Tick` changes neither the object nor the world, so two ticks
yield what one tick yields. In general `Tick` on a state with `bLabelActivated` set changes
nothing. -/
theorem Tick_idempotent (s : UMachineState) (w : World) :
    (s.bLabelActivated = true → s.Tick w = some (s, w)) ∧
    (∀ f, s.bLabelActivated = false →
      TMap.Find s.RegisteredLabels s.ActiveLabel = some f → f.IsBound = true →
      ∃ s1 w1 c, s.Tick w = some (s1, w1) ∧
        s1.Tick w1 = some (s1, w1) ∧
        (s.Tick w).bind (fun r => r.1.Tick r.2) = s.Tick w ∧
        s1 = { s with bLabelActivated := true,
                      RunningLabelCoroutines :=
                        s.RunningLabelCoroutines ++ [w.coroutines.length] } ∧
        w1.coroutines = w.coroutines ++ [c]) := by
  refine ⟨?_, ?_⟩
  · intro h
    simp [Tick, h]
  · intro f hA hF hB
    obtain ⟨fr, ids, hS⟩ := start_of_IsBound_aux f hB
    refine ⟨_, _, _, Tick_start s w f fr ids hA hF hB hS, ?_, ?_, rfl, rfl⟩
    · simp [Tick]
    · rw [Tick_start s w f fr ids hA hF hB hS]
      simp [Tick]

/-- Witness of C7: the first `Tick` on the state with `Attack` active starts one coroutine, the
second changes nothing. -/
theorem Tick_idempotent_witness :
    attackTicked.Tick attackWorld = some (attackTicked, attackWorld) ∧
    (∃ s1 w1 c, attackState.Tick emptyWorld = some (s1, w1) ∧
      s1.Tick w1 = some (s1, w1) ∧
      (attackState.Tick emptyWorld).bind (fun r => r.1.Tick r.2) = attackState.Tick emptyWorld ∧
      s1 = { attackState with bLabelActivated := true,
                              RunningLabelCoroutines :=
                                attackState.RunningLabelCoroutines ++
                                  [emptyWorld.coroutines.length] } ∧
      w1.coroutines = emptyWorld.coroutines ++ [c]) :=
  ⟨(Tick_idempotent attackTicked attackWorld).1 (by decide),
   (Tick_idempotent attackState emptyWorld).2
     (.callbackWrapper (.routine routineAttack)) (by decide) (by decide) (by decide)⟩

/-- C8: after `End` or `Popped` the running-label set and the latent-cancellation set are
empty, every coroutine that was tracked is marked cancelled, the bound latent cancellers that
were stored have been invoked in stored order, each stored record once (the invocation trace
grows by exactly those ids), and the label table is unchanged. -/
theorem End_Popped_teardown (s : UMachineState) (w : World) (NewState : Option Nat)
    (r : UMachineState × World) (hr : r = s.End w NewState ∨ r = s.Popped w) :
    r.1.RunningLabelCoroutines = [] ∧
    r.1.RunningLatentExecutions = [] ∧
    (∀ h ∈ s.RunningLabelCoroutines, ∀ c, w.coroutines[h]? = some c →
      r.2.coroutines[h]? = some { c with bCancelled := true }) ∧
    r.2.latentInvocations = w.latentInvocations ++ s.RunningLatentExecutions.filterMap id ∧
    (∀ k, r.2.latentInvocations.count k =
      w.latentInvocations.count k + s.RunningLatentExecutions.count (some k)) ∧
    r.1.RegisteredLabels = s.RegisteredLabels := by
  have hP : s.Popped w = s.End w NewState := rfl
  have hr1 : r = s.End w NewState := by
    rcases hr with h | h
    · exact h
    · rw [h, hP]
  subst hr1
  have hT := World.foldl_Cancel_traces s.RunningLabelCoroutines w
  have hL : (s.End w NewState).2.latentInvocations =
      w.latentInvocations ++ s.RunningLatentExecutions.filterMap id := by
    simp [End, StopRunningLabels_eq, StopLatentExecution_Implementation_eq, hT.2.1]
  refine ⟨?_, ?_, ?_, hL, ?_, ?_⟩
  · simp [End, StopRunningLabels_eq, StopLatentExecution_Implementation_eq]
  · simp [End, StopRunningLabels_eq, StopLatentExecution_Implementation_eq]
  · intro h hm c hc
    simp [End, StopRunningLabels_eq, StopLatentExecution_Implementation_eq,
      World.foldl_Cancel_getElem?, hc, hm, Coroutine.cancel]
  · intro k
    rw [hL, List.count_append, count_filterMap_id]
  · simp [End, StopRunningLabels_eq, StopLatentExecution_Implementation_eq]

/-- Witness of C8: `End` on the state that runs `Attack` and stores the cancellers
`[5, unbound, 6]`: both sets are emptied, the coroutine is cancelled, 5 and 6 are invoked. -/
theorem End_Popped_teardown_witness :
    (busyState.End attackWorld none).1.RunningLabelCoroutines = [] ∧
    (busyState.End attackWorld none).1.RunningLatentExecutions = [] ∧
    (busyState.End attackWorld none).2.coroutines[0]? =
      some { bCancelled := true, frame := .atForcedYield (.routine routineAttack) } ∧
    (busyState.End attackWorld none).2.latentInvocations = [5, 6] ∧
    (busyState.Popped attackWorld).2.latentInvocations = [5, 6] :=
  have h := End_Popped_teardown busyState attackWorld none _ (Or.inl rfl)
  have h1 := End_Popped_teardown busyState attackWorld none _ (Or.inr rfl)
  ⟨h.1, h.2.1,
   h.2.2.1 0 (by decide)
     { bCancelled := false, frame := .atForcedYield (.routine routineAttack) } (by decide),
   h.2.2.2.1.trans (by decide), h1.2.2.2.1.trans (by decide)⟩

/-- C9: the default hooks `Begin`, `Pushed`, `Paused` and `Resumed` of an ordinary machine
state change nothing: the object (active label, `bLabelActivated`, running-label set, latent
cancellers, label table) and the world (no coroutine cancelled, no canceller invoked) are
returned as they were. -/
theorem hooks_without_teardown (s : UMachineState) (w : World) (PreviousState : Option Nat) :
    s.Begin w PreviousState = (s, w) ∧ s.Pushed w = (s, w) ∧
    s.Paused w = (s, w) ∧ s.Resumed w = (s, w) :=
  ⟨rfl, rfl, rfl, rfl⟩

/-- C10: `RegisterLabel L cb` stores under `L` the wrapper around `cb`. On any state whose
active label `L` has that entry and is not yet activated, `Tick` starts the wrapper's
coroutine, which stops at the forced yield: the new coroutine is suspended there, not
cancelled, its handle is tracked, and the trace of invoked user routines is what it was, so
nothing of the callback ran in the tick that started it. Resumed without cancellation the
coroutine invokes the callback: when no other coroutine is pending, the next scheduling tick
appends the id of the user routine to the trace. If instead `StopRunningLabels` is called
before the next scheduling tick, the coroutine is marked cancelled while still at the forced
yield, its resumption unwinds it without invoking anything, it stays finished, and (no other
coroutine pending) after any number of scheduling ticks the trace is still what it was before
`Tick`: the callback is never invoked. -/
theorem CallbackWrapper_forced_yield (s : UMachineState) (w : World) (L : FGameplayTag)
    (cb : FLabelSignature) (hReg : (s.RegisterLabel L cb).1 = true) :
    TMap.Find (s.RegisterLabel L cb).2.RegisteredLabels L = some (.callbackWrapper cb) ∧
    ∀ t : UMachineState, t.ActiveLabel = L → t.bLabelActivated = false →
      TMap.Find t.RegisteredLabels L = some (.callbackWrapper cb) →
      ∃ t1 w1, t.Tick w = some (t1, w1) ∧
        w1.labelInvocations = w.labelInvocations ∧
        w1.coroutines =
          w.coroutines ++ [{ bCancelled := false, frame := .atForcedYield cb }] ∧
        t1.RunningLabelCoroutines = t.RunningLabelCoroutines ++ [w.coroutines.length] ∧
        (∀ r, cb = .routine r →
          Coroutine.resume { bCancelled := false, frame := .atForcedYield cb } =
            some ({ bCancelled := false, frame := r.firstFrame }, [r.id])) ∧
        ((∀ c ∈ w.coroutines, c.IsDone = true) → ∀ r, cb = .routine r →
          ∃ w2, w1.NextTick = some w2 ∧ w2.labelInvocations = w.labelInvocations ++ [r.id]) ∧
        (t1.StopRunningLabels w1).2.2.coroutines[w.coroutines.length]? =
          some { bCancelled := true, frame := .atForcedYield cb } ∧
        Coroutine.resume { bCancelled := true, frame := .atForcedYield cb } =
          some ({ bCancelled := true, frame := .done false }, []) ∧
        Coroutine.resume { bCancelled := true, frame := .done false } =
          some ({ bCancelled := true, frame := .done false }, []) ∧
        ((∀ c ∈ w.coroutines, c.IsDone = true) → ∀ n,
          ∃ w3, (t1.StopRunningLabels w1).2.2.NextTicks n = some w3 ∧
            w3.labelInvocations = w.labelInvocations) := by
  refine ⟨Find_RegisterLabel_self s L cb hReg, ?_⟩
  intro t hL hA hF
  rw [← hL] at hF
  have hT : t.Tick w = some
      ({ t with bLabelActivated := true,
                RunningLabelCoroutines := t.RunningLabelCoroutines ++ [w.coroutines.length] },
       { w with coroutines :=
                  w.coroutines ++ [{ bCancelled := false, frame := .atForcedYield cb }] }) := by
    rw [Tick_start t w (.callbackWrapper cb) (.atForcedYield cb) [] hA hF rfl rfl]
    simp
  refine ⟨_, _, hT, rfl, rfl, rfl, ?_, ?_, ?_, rfl, rfl, ?_⟩
  · intro r hr
    subst hr
    rfl
  · intro hdone r hr
    subst hr
    have h1 := World.resumeAll_done w.coroutines hdone
    have h2 : World.resumeAll
        [({ bCancelled := false, frame := .atForcedYield (.routine r) } : Coroutine)] =
        some ([{ bCancelled := false, frame := r.firstFrame }], [r.id]) := rfl
    have h3 := World.resumeAll_append _ _ _ _ _ _ h1 h2
    refine ⟨{ w with coroutines := w.coroutines ++ [{ bCancelled := false, frame := r.firstFrame }],
                     labelInvocations := w.labelInvocations ++ [r.id] }, ?_, rfl⟩
    simp [World.NextTick, h3]
  · rw [StopRunningLabels_eq]
    simp only [World.foldl_Cancel_getElem?]
    simp [Coroutine.cancel]
  · intro hdone n
    rw [StopRunningLabels_eq]
    have hq := World.quiet_after_Cancel w
      { bCancelled := false, frame := .atForcedYield cb }
      (t.RunningLabelCoroutines ++ [w.coroutines.length]) hdone (by simp)
    obtain ⟨w3, h3, hi⟩ := World.NextTicks_quiet n _ hq
    refine ⟨w3, h3, ?_⟩
    rw [hi, (World.foldl_Cancel_traces _ _).1]

/-- Witness of C10: `Attack` registered on a fresh state and made the active label. `Tick`
leaves the trace empty; the next scheduling tick invokes routine 7; with `StopRunningLabels`
before it, the trace stays empty through any number of scheduling ticks. -/
theorem CallbackWrapper_forced_yield_witness :
    ∃ t1 w1, attackState.Tick emptyWorld = some (t1, w1) ∧
      w1.labelInvocations = [] ∧
      (∃ w2, w1.NextTick = some w2 ∧ w2.labelInvocations = [7]) ∧
      (∀ n, ∃ w3, (t1.StopRunningLabels w1).2.2.NextTicks n = some w3 ∧
        w3.labelInvocations = []) :=
  match (CallbackWrapper_forced_yield freshState emptyWorld tagAttack (.routine routineAttack)
      (by decide)).2 attackState (by decide) (by decide) (by decide) with
  | ⟨t1, w1, h1, h2, _, _, _, h6, _, _, _, h10⟩ =>
    ⟨t1, w1, h1, h2, h6 (by decide) routineAttack rfl, h10 (by decide)⟩

/-! ## Further lemmas -/

/-- The scheduling tick after a wrapper around a user routine was started, nothing else
pending: the routine is invoked and runs to its first suspension. -/
theorem NextTick_after_start (w : World) (r : LabelRoutine)
    (hdone : ∀ c ∈ w.coroutines, c.IsDone = true) :
    World.NextTick
        { w with coroutines := w.coroutines ++
                   [{ bCancelled := false, frame := .atForcedYield (.routine r) }] } =
      some { w with coroutines := w.coroutines ++
                      [{ bCancelled := false, frame := r.firstFrame }],
                    labelInvocations := w.labelInvocations ++ [r.id] } := by
  have h1 := World.resumeAll_done w.coroutines hdone
  have h2 : World.resumeAll
      [({ bCancelled := false, frame := .atForcedYield (.routine r) } : Coroutine)] =
      some ([{ bCancelled := false, frame := r.firstFrame }], [r.id]) := rfl
  have h3 := World.resumeAll_append _ _ _ _ _ _ h1 h2
  simp [World.NextTick, h3]

/-- Whether the coroutine appended last to a table reports done. -/
theorem IsDone_appended (w : World) (c : Coroutine) (ids : List Nat) :
    World.IsDone { w with coroutines := w.coroutines ++ [c], labelInvocations := ids }
      w.coroutines.length = c.IsDone := by
  simp [World.IsDone]

/-! ## Claims, continued -/

/-- C11, the claim refuted: on the freshly constructed state (running set empty, `Default`
active, registered, not activated, its routine `Label_Default` finishing synchronously) `Tick`
leaves one handle in the tracked running-label set, not zero. -/
theorem Tick_sync_label_counterexample :
    freshState.bLabelActivated = false ∧
    TMap.Find freshState.RegisteredLabels freshState.ActiveLabel =
      some (.callbackWrapper (.routine Label_Default)) ∧
    Label_Default.suspensions = 0 ∧
    freshState.RunningLabelCoroutines = [] ∧
    freshState.Tick emptyWorld = some (defaultTicked, defaultWorld) ∧
    defaultTicked.RunningLabelCoroutines = [0] ∧
    defaultTicked.RunningLabelCoroutines ≠ [] := by
  decide

/-- C11, amended: on a state whose active label is registered (bound) and not yet activated,
`Tick` adds exactly one handle, that of the task it started, to the tracked running-label set,
also when the callback finishes synchronously. For an entry stored by `RegisterLabel` around a
user routine the task is not done when `Tick` returns (it is at the forced yield); when the
routine finishes synchronously the task is done after the next scheduling tick (nothing else
pending), and its handle is still tracked. -/
theorem Tick_tracks_started_task (s : UMachineState) (w : World) (f : FLabelSignature)
    (hA : s.bLabelActivated = false)
    (hF : TMap.Find s.RegisteredLabels s.ActiveLabel = some f) (hB : f.IsBound = true) :
    ∃ s1 w1, s.Tick w = some (s1, w1) ∧
      s1.RunningLabelCoroutines = s.RunningLabelCoroutines ++ [w.coroutines.length] ∧
      s1.RunningLabelCoroutines.length = s.RunningLabelCoroutines.length + 1 ∧
      (∀ r, f = .callbackWrapper (.routine r) →
        w1.IsDone w.coroutines.length = false ∧
        (r.suspensions = 0 → (∀ c ∈ w.coroutines, c.IsDone = true) →
          ∃ w2, Op.run [.Tick, .NextTick] s w = some (s1, w2) ∧
            w2.IsDone w.coroutines.length = true)) := by
  obtain ⟨fr, ids, hS⟩ := start_of_IsBound_aux f hB
  have hT := Tick_start s w f fr ids hA hF hB hS
  refine ⟨_, _, hT, rfl, by simp, ?_⟩
  intro r hr
  subst hr
  simp only [FLabelSignature.start, Option.some.injEq, Prod.mk.injEq] at hS
  obtain ⟨e1, e2⟩ := hS
  subst e1 e2
  refine ⟨?_, ?_⟩
  · rw [IsDone_appended]
    rfl
  · intro h0 hdone
    have hN := NextTick_after_start w r hdone
    refine ⟨{ w with coroutines := w.coroutines ++
                       [{ bCancelled := false, frame := r.firstFrame }],
                     labelInvocations := w.labelInvocations ++ [r.id] }, ?_, ?_⟩
    · simp only [Op.run, Op.step, hT, List.append_nil, hN, Option.map_some']
    · rw [IsDone_appended]
      simp [LabelRoutine.firstFrame, h0, Coroutine.IsDone]

/-- Witness of C11 amended: the fresh state in the empty world. After `Tick` the handle `0` is
tracked and not done; after the next scheduling tick it is done and still tracked. -/
theorem Tick_tracks_started_task_witness :
    ∃ s1 w1, freshState.Tick emptyWorld = some (s1, w1) ∧
      s1.RunningLabelCoroutines = [0] ∧
      w1.IsDone 0 = false ∧
      ∃ w2, Op.run [.Tick, .NextTick] freshState emptyWorld = some (s1, w2) ∧
        w2.IsDone 0 = true :=
  match Tick_tracks_started_task freshState emptyWorld
      (.callbackWrapper (.routine Label_Default)) (by decide) (by decide) (by decide) with
  | ⟨s1, w1, h1, h2, _, h4⟩ =>
    ⟨s1, w1, h1, h2, (h4 Label_Default rfl).1,
     (h4 Label_Default rfl).2 (by decide) (by decide)⟩

/-- C12: the local latent sweep `StopLatentExecution_Implementation` invokes the stored bound
cancellers in stored order, each stored record once (the invocation trace grows by exactly
their ids), returns the number of cancellers it invoked (unbound records are skipped and not
counted), and empties the latent-cancellation set; nothing else of the object changes (label
table, active label, `bLabelActivated`, running-label set) and no coroutine is touched; a second
call right after returns 0 and changes nothing. -/
theorem StopLatentExecution_Implementation_spec (s : UMachineState) (w : World) :
    (s.StopLatentExecution_Implementation w).1 =
      s.RunningLatentExecutions.countP (fun d => d.isSome) ∧
    (s.StopLatentExecution_Implementation w).1 =
      (s.RunningLatentExecutions.filterMap id).length ∧
    (s.StopLatentExecution_Implementation w).2.1 = { s with RunningLatentExecutions := [] } ∧
    (s.StopLatentExecution_Implementation w).2.2 =
      { w with latentInvocations :=
                 w.latentInvocations ++ s.RunningLatentExecutions.filterMap id } ∧
    (∀ k, (s.StopLatentExecution_Implementation w).2.2.latentInvocations.count k =
      w.latentInvocations.count k + s.RunningLatentExecutions.count (some k)) ∧
    (s.StopLatentExecution_Implementation w).2.1.StopLatentExecution_Implementation
        (s.StopLatentExecution_Implementation w).2.2 =
      (0, (s.StopLatentExecution_Implementation w).2.1,
        (s.StopLatentExecution_Implementation w).2.2) := by
  rw [StopLatentExecution_Implementation_eq]
  refine ⟨rfl, ?_, rfl, rfl, ?_, ?_⟩
  · show List.countP _ _ = _
    induction s.RunningLatentExecutions with
    | nil => rfl
    | cons d rest ih => cases d <;> simp [List.countP_cons, ih]
  · intro k
    show List.count k (_ ++ _) = _
    rw [List.count_append, count_filterMap_id]
  · rw [StopLatentExecution_Implementation_eq]
    simp

/-- The teardown hooks broadcast nothing themselves. -/
theorem End_broadcasts (s : UMachineState) (w : World) (n : Option Nat) :
    (s.End w n).2.broadcasts = w.broadcasts ∧ (s.Popped w).2.broadcasts = w.broadcasts := by
  have hT := World.foldl_Cancel_traces s.RunningLabelCoroutines w
  simp [End, Popped, StopRunningLabels_eq, StopLatentExecution_Implementation_eq, hT.2.2.1]

/-- The number of an enumerator stands for that enumerator. -/
theorem ofRaw_toRaw (a : EStateAction) : EStateAction.ofRaw a.toRaw = some a := by
  cases a <;> rfl

/-- C13: on an ordinary machine state, for every action kind of the closed set
`OnStateAction` succeeds and yields what the matching hook yields (Begin: `Begin(payload)`,
End: `End(payload)`, Push: `Pushed`, Pop: `Popped`, Pause: `Paused`, Resume: `Resumed`) with
exactly one broadcast, of that same kind, appended to what had been broadcast; a value outside
the closed set is fatal, and nothing is broadcast. The broadcast comes after the hook has
completed, never before: `OnStateAction` is the body `OnStateActionWith` run over the hooks of
the class, and for whatever hook implementations the hook is called on the world as it was
(the action not yet broadcast) and the action is appended to the broadcast trace of the world
the hook returned, so that everything broadcast while the hook ran precedes it; a fatal hook
is followed by no broadcast. -/
theorem OnStateAction_ordinary (s : UMachineState) (w : World) (payload : Option Nat)
    (hO : s.bGlobal = false) :
    s.OnStateAction w EStateAction.Begin.toRaw payload =
      some ((s.Begin w payload).1,
        { (s.Begin w payload).2 with broadcasts := w.broadcasts ++ [.Begin] }) ∧
    s.OnStateAction w EStateAction.End.toRaw payload =
      some ((s.End w payload).1,
        { (s.End w payload).2 with broadcasts := w.broadcasts ++ [.End] }) ∧
    s.OnStateAction w EStateAction.Push.toRaw payload =
      some ((s.Pushed w).1, { (s.Pushed w).2 with broadcasts := w.broadcasts ++ [.Push] }) ∧
    s.OnStateAction w EStateAction.Pop.toRaw payload =
      some ((s.Popped w).1, { (s.Popped w).2 with broadcasts := w.broadcasts ++ [.Pop] }) ∧
    s.OnStateAction w EStateAction.Pause.toRaw payload =
      some ((s.Paused w).1, { (s.Paused w).2 with broadcasts := w.broadcasts ++ [.Pause] }) ∧
    s.OnStateAction w EStateAction.Resume.toRaw payload =
      some ((s.Resumed w).1,
        { (s.Resumed w).2 with broadcasts := w.broadcasts ++ [.Resume] }) ∧
    (∀ a : EStateAction, ∃ s1 w1, s.OnStateAction w a.toRaw payload = some (s1, w1) ∧
      w1.broadcasts = w.broadcasts ++ [a]) ∧
    (∀ raw, EStateAction.ofRaw raw = none → s.OnStateAction w raw payload = none) ∧
    (∀ raw, s.OnStateAction w raw payload = OnStateActionWith classHooks s w raw payload) ∧
    (∀ (v : Hooks) (a : EStateAction) (s1 : UMachineState) (w1 : World),
      v.dispatch s w payload a = some (s1, w1) →
      OnStateActionWith v s w a.toRaw payload =
        some (s1, { w1 with broadcasts := w1.broadcasts ++ [a] })) ∧
    (∀ (v : Hooks) (a : EStateAction), v.dispatch s w payload a = none →
      OnStateActionWith v s w a.toRaw payload = none) ∧
    (∀ (v : Hooks) (raw : Nat), EStateAction.ofRaw raw = none →
      OnStateActionWith v s w raw payload = none) := by
  have hE := End_broadcasts s w payload
  have h1 : s.OnStateAction w EStateAction.Begin.toRaw payload =
      some ((s.Begin w payload).1,
        { (s.Begin w payload).2 with broadcasts := w.broadcasts ++ [.Begin] }) := by
    simp [OnStateAction, OnStateActionWith, EStateAction.toRaw, EStateAction.ofRaw,
      Hooks.dispatch, classHooks, Begin]
  have h2 : s.OnStateAction w EStateAction.End.toRaw payload =
      some ((s.End w payload).1,
        { (s.End w payload).2 with broadcasts := w.broadcasts ++ [.End] }) := by
    simp [OnStateAction, OnStateActionWith, EStateAction.toRaw, EStateAction.ofRaw,
      Hooks.dispatch, classHooks, hE.1]
  have h3 : s.OnStateAction w EStateAction.Push.toRaw payload =
      some ((s.Pushed w).1, { (s.Pushed w).2 with broadcasts := w.broadcasts ++ [.Push] }) := by
    simp [OnStateAction, OnStateActionWith, EStateAction.toRaw, EStateAction.ofRaw,
      Hooks.dispatch, classHooks, callPushed, hO,
      Pushed]
  have h4 : s.OnStateAction w EStateAction.Pop.toRaw payload =
      some ((s.Popped w).1, { (s.Popped w).2 with broadcasts := w.broadcasts ++ [.Pop] }) := by
    simp [OnStateAction, OnStateActionWith, EStateAction.toRaw, EStateAction.ofRaw,
      Hooks.dispatch, classHooks, callPopped, hO,
      hE.2]
  have h5 : s.OnStateAction w EStateAction.Pause.toRaw payload =
      some ((s.Paused w).1, { (s.Paused w).2 with broadcasts := w.broadcasts ++ [.Pause] }) := by
    simp [OnStateAction, OnStateActionWith, EStateAction.toRaw, EStateAction.ofRaw,
      Hooks.dispatch, classHooks, callPaused, hO,
      Paused]
  have h6 : s.OnStateAction w EStateAction.Resume.toRaw payload =
      some ((s.Resumed w).1,
        { (s.Resumed w).2 with broadcasts := w.broadcasts ++ [.Resume] }) := by
    simp [OnStateAction, OnStateActionWith, EStateAction.toRaw, EStateAction.ofRaw,
      Hooks.dispatch, classHooks, callResumed, hO,
      Resumed]
  refine ⟨h1, h2, h3, h4, h5, h6, ?_, ?_, ?_, ?_, ?_, ?_⟩
  · intro a
    cases a
    · exact ⟨_, _, h1, rfl⟩
    · exact ⟨_, _, h2, rfl⟩
    · exact ⟨_, _, h3, rfl⟩
    · exact ⟨_, _, h4, rfl⟩
    · exact ⟨_, _, h6, rfl⟩
    · exact ⟨_, _, h5, rfl⟩
  · intro raw hr
    simp [OnStateAction, OnStateActionWith, hr]
  · intro raw
    rfl
  · intro v a s1 w1 hd
    simp only [OnStateActionWith, ofRaw_toRaw, hd]
  · intro v a hd
    simp only [OnStateActionWith, ofRaw_toRaw, hd]
  · intro v raw hr
    simp only [OnStateActionWith, hr]

/-- Witness of C13: on the ordinary state that runs `Attack` and stores cancellers, the action
`End` tears down and then broadcasts `End`; the value 6 is outside the closed set and fatal.
With the hooks of a class whose `Begin` has `Pause` broadcast while it runs, the action `Begin`
on the fresh state leaves the trace `Pause, Begin`: the broadcast of the action is the later
one. With the broadcast before the hook the trace would be `Begin, Pause`. -/
theorem OnStateAction_ordinary_witness :
    busyState.OnStateAction attackWorld EStateAction.End.toRaw none =
      some ((busyState.End attackWorld none).1,
        { (busyState.End attackWorld none).2 with
          broadcasts := attackWorld.broadcasts ++ [.End] }) ∧
    busyState.OnStateAction attackWorld 6 none = none ∧
    OnStateActionWith pushingHooks freshState emptyWorld EStateAction.Begin.toRaw none =
      some (freshState, { emptyWorld with broadcasts := [.Pause, .Begin] }) ∧
    OnStateActionWith pushingHooks freshState emptyWorld EStateAction.Begin.toRaw none ≠
      some (freshState, { emptyWorld with broadcasts := [.Begin, .Pause] }) :=
  have h := OnStateAction_ordinary busyState attackWorld none (by decide)
  have hp := (OnStateAction_ordinary freshState emptyWorld none (by decide)).2.2.2.2.2.2.2.2.2.1
    pushingHooks .Begin freshState { emptyWorld with broadcasts := [.Pause] } rfl
  ⟨h.2.1, h.2.2.2.2.2.2.2.1 6 (by decide), hp, by rw [hp]; decide⟩

/-- C14: on a global machine state `Pushed`, `Popped`, `Paused` and `Resumed` are fatal, so
`OnStateAction` with Push, Pop, Pause or Resume is fatal and reaches no broadcast; `Begin`,
`End`, `RegisterLabel`, `GotoLabel`, `Tick`, `StopRunningLabels` and the local latent sweep
give, on the global state, the results and changes they give on the ordinary state with the
same contents (and `OnStateAction` with Begin or End likewise, broadcast included). -/
theorem Global_state_hooks (s : UMachineState) (w : World) (payload : Option Nat)
    (L : FGameplayTag) (cb : FLabelSignature) :
    UGlobalMachineState.Pushed (s.withGlobal true) w = none ∧
    UGlobalMachineState.Popped (s.withGlobal true) w = none ∧
    UGlobalMachineState.Paused (s.withGlobal true) w = none ∧
    UGlobalMachineState.Resumed (s.withGlobal true) w = none ∧
    (s.withGlobal true).callPushed w = none ∧
    (s.withGlobal true).callPopped w = none ∧
    (s.withGlobal true).callPaused w = none ∧
    (s.withGlobal true).callResumed w = none ∧
    (s.withGlobal true).OnStateAction w EStateAction.Push.toRaw payload = none ∧
    (s.withGlobal true).OnStateAction w EStateAction.Pop.toRaw payload = none ∧
    (s.withGlobal true).OnStateAction w EStateAction.Pause.toRaw payload = none ∧
    (s.withGlobal true).OnStateAction w EStateAction.Resume.toRaw payload = none ∧
    (s.withGlobal true).Begin w payload =
      (((s.withGlobal false).Begin w payload).1.withGlobal true,
        ((s.withGlobal false).Begin w payload).2) ∧
    (s.withGlobal true).End w payload =
      (((s.withGlobal false).End w payload).1.withGlobal true,
        ((s.withGlobal false).End w payload).2) ∧
    (s.withGlobal true).RegisterLabel L cb =
      (((s.withGlobal false).RegisterLabel L cb).1,
        ((s.withGlobal false).RegisterLabel L cb).2.withGlobal true) ∧
    (s.withGlobal true).GotoLabel L =
      (((s.withGlobal false).GotoLabel L).1,
        ((s.withGlobal false).GotoLabel L).2.withGlobal true) ∧
    (s.withGlobal true).Tick w =
      ((s.withGlobal false).Tick w).map (fun r => (r.1.withGlobal true, r.2)) ∧
    (s.withGlobal true).StopRunningLabels w =
      (((s.withGlobal false).StopRunningLabels w).1,
        ((s.withGlobal false).StopRunningLabels w).2.1.withGlobal true,
        ((s.withGlobal false).StopRunningLabels w).2.2) ∧
    (s.withGlobal true).StopLatentExecution_Implementation w =
      (((s.withGlobal false).StopLatentExecution_Implementation w).1,
        ((s.withGlobal false).StopLatentExecution_Implementation w).2.1.withGlobal true,
        ((s.withGlobal false).StopLatentExecution_Implementation w).2.2) ∧
    (s.withGlobal true).OnStateAction w EStateAction.Begin.toRaw payload =
      ((s.withGlobal false).OnStateAction w EStateAction.Begin.toRaw payload).map
        (fun r => (r.1.withGlobal true, r.2)) ∧
    (s.withGlobal true).OnStateAction w EStateAction.End.toRaw payload =
      ((s.withGlobal false).OnStateAction w EStateAction.End.toRaw payload).map
        (fun r => (r.1.withGlobal true, r.2)) := by
  have hEnd : (s.withGlobal true).End w payload =
      (((s.withGlobal false).End w payload).1.withGlobal true,
        ((s.withGlobal false).End w payload).2) := by
    simp [End, StopRunningLabels_eq, StopLatentExecution_Implementation_eq, withGlobal]
  refine ⟨rfl, rfl, rfl, rfl, rfl, rfl, rfl, rfl, rfl, rfl, rfl, rfl, rfl, hEnd, ?_, ?_, ?_,
    ?_, ?_, ?_, ?_⟩
  · simp only [RegisterLabel, withGlobal, ContainsLabel]
    cases IsLabelTagCorrect L <;> cases cb.IsBound <;>
      cases (TMap.Find s.RegisteredLabels L).isSome <;> simp
  · simp only [GotoLabel, withGlobal, ContainsLabel]
    cases IsLabelTagCorrect L <;> cases (TMap.Find s.RegisteredLabels L).isSome <;> simp
  · simp only [Tick, withGlobal]
    cases s.bLabelActivated
    · cases hF : TMap.Find s.RegisteredLabels s.ActiveLabel with
      | none => simp
      | some f =>
        cases hB : f.IsBound
        · simp [hB]
        · cases hX : f.Execute w with
          | none => simp [hB, hX]
          | some r => simp [hB, hX]
    · simp
  · simp [StopRunningLabels_eq, withGlobal]
  · simp [StopLatentExecution_Implementation_eq, withGlobal]
  · simp [OnStateAction, OnStateActionWith, EStateAction.toRaw, EStateAction.ofRaw,
      Hooks.dispatch, classHooks, Begin, withGlobal]
  · simp [OnStateAction, OnStateActionWith, EStateAction.toRaw, EStateAction.ofRaw,
      Hooks.dispatch, classHooks, hEnd]

/-- C15: `SetInitialLabel L` is total (it has no failing path), sets `ActiveLabel` to `L` and
`bLabelActivated` to false whatever the tag, and leaves the label table, the running-label set
and the latent cancellers unchanged; it touches nothing outside the object. When `L` is not
registered, the `Tick` that follows is fatal (the `FindChecked` on the missing label). -/
theorem SetInitialLabel_unvalidated (s : UMachineState) (w : World) (L : FGameplayTag) :
    s.SetInitialLabel L = { s with ActiveLabel := L, bLabelActivated := false } ∧
    (s.SetInitialLabel L).ActiveLabel = L ∧
    (s.SetInitialLabel L).bLabelActivated = false ∧
    (s.SetInitialLabel L).RegisteredLabels = s.RegisteredLabels ∧
    (s.SetInitialLabel L).RunningLabelCoroutines = s.RunningLabelCoroutines ∧
    (s.SetInitialLabel L).RunningLatentExecutions = s.RunningLatentExecutions ∧
    (s.ContainsLabel L = false → (s.SetInitialLabel L).Tick w = none) := by
  refine ⟨rfl, rfl, rfl, rfl, rfl, rfl, ?_⟩
  intro h
  have hF : TMap.Find s.RegisteredLabels L = none := by
    simpa [ContainsLabel] using h
  simp [Tick, SetInitialLabel, hF]

/-- Witness of C15: `Attack` is not registered on the fresh state; `SetInitialLabel(Attack)`
goes through and the next `Tick` is fatal. -/
theorem SetInitialLabel_unvalidated_witness :
    (freshState.SetInitialLabel tagAttack).ActiveLabel = tagAttack ∧
    (freshState.SetInitialLabel tagAttack).Tick emptyWorld = none :=
  have h := SetInitialLabel_unvalidated freshState emptyWorld tagAttack
  ⟨h.2.1, h.2.2.2.2.2.2 (by decide)⟩

/-- Tracked handles split into those that report done and those that do not. -/
theorem countP_IsDone_split (l : List FAsyncCoroutine) (w : World) :
    l.countP (fun h => !w.IsDone h) + l.countP (fun h => w.IsDone h) = l.length := by
  induction l with
  | nil => rfl
  | cons h rest ih =>
    rw [List.countP_cons, List.countP_cons, List.length_cons]
    cases w.IsDone h <;> simp <;> omega

/-- C16, the claim refuted: a fresh state registers `Crash` (a routine that aborts after its
first suspension), makes it the active label and ticks; two scheduling ticks later the tracked
handle `0` reports done, having finished with failure. `StopRunningLabels` then returns 0: the
handle is not counted. It is cleared from the running set. -/
theorem StopRunningLabels_failed_counterexample :
    Op.run [.RegisterLabel tagCrash (.routine routineCrash), .GotoLabel tagCrash, .Tick,
      .NextTick, .NextTick] freshState emptyWorld = some (crashedState, crashedWorld) ∧
    crashedState.RunningLabelCoroutines = [0] ∧
    crashedWorld.coroutines[0]? = some { bCancelled := false, frame := .done false } ∧
    crashedWorld.IsDone 0 = true ∧
    (crashedState.StopRunningLabels crashedWorld).1 = 0 ∧
    ¬ (1 ≤ (crashedState.StopRunningLabels crashedWorld).1) ∧
    (crashedState.StopRunningLabels crashedWorld).2.1.RunningLabelCoroutines = [] := by
  decide

/-- C16, amended: `StopRunningLabels` always completes (it has no failing path), returns the
number of tracked handles that do not report done, and empties the running set. A tracked
handle that already reports done, in particular one that finished with failure, is cleared
but not counted: the count stays below the number of tracked handles, and it is 0 when every
tracked handle reports done. -/
theorem StopRunningLabels_skips_done (s : UMachineState) (w : World) :
    (s.StopRunningLabels w).1 = s.RunningLabelCoroutines.countP (fun h => !w.IsDone h) ∧
    (s.StopRunningLabels w).1 + s.RunningLabelCoroutines.countP (fun h => w.IsDone h) =
      s.RunningLabelCoroutines.length ∧
    (s.StopRunningLabels w).2.1.RunningLabelCoroutines = [] ∧
    (∀ h b, h ∈ s.RunningLabelCoroutines →
      w.coroutines[h]? = some { bCancelled := b, frame := .done false } →
      (s.StopRunningLabels w).1 < s.RunningLabelCoroutines.length) ∧
    ((∀ h ∈ s.RunningLabelCoroutines, w.IsDone h = true) → (s.StopRunningLabels w).1 = 0) := by
  rw [StopRunningLabels_eq]
  have hsplit := countP_IsDone_split s.RunningLabelCoroutines w
  refine ⟨rfl, hsplit, rfl, ?_, ?_⟩
  · intro h b hm hc
    have hd : w.IsDone h = true := by simp [World.IsDone, hc, Coroutine.IsDone]
    have hpos : 0 < s.RunningLabelCoroutines.countP (fun h => w.IsDone h) :=
      List.countP_pos_iff.2 ⟨h, hm, hd⟩
    show List.countP _ _ < _
    omega
  · intro hall
    show List.countP _ _ = 0
    rw [List.countP_eq_zero]
    intro h hm
    simp [hall h hm]

/-- Witness of C16 amended: the state whose only tracked handle finished with failure. -/
theorem StopRunningLabels_skips_done_witness :
    (crashedState.StopRunningLabels crashedWorld).1 < crashedState.RunningLabelCoroutines.length ∧
    (crashedState.StopRunningLabels crashedWorld).1 = 0 :=
  have h := StopRunningLabels_skips_done crashedState crashedWorld
  ⟨h.2.2.2.1 0 false (by decide) (by decide), h.2.2.2.2 (by decide)⟩

/-- When `Initialize` succeeds, and what it yields. -/
theorem Initialize_eq_some (s s1 : UMachineState) :
    s.Initialize = some s1 ↔
      (s.BaseStateData = none ∧ ∃ cls, s.StateDataClass = some cls ∧
        s1 = { s with BaseStateData := some cls }) := by
  unfold Initialize CreateStateData
  cases hD : s.BaseStateData with
  | some d => simp
  | none =>
    cases hC : s.StateDataClass with
    | none => simp
    | some cls =>
      simp only [Option.isSome_none, Bool.false_eq_true, if_false, Option.some.injEq,
        true_and, exists_eq_left']
      exact eq_comm

/-- When `SetStateMachine` succeeds, and what it yields. -/
theorem SetStateMachine_eq_some (s s1 : UMachineState) (x : Option Nat) :
    s.SetStateMachine x = some s1 ↔
      (s.StateMachine = none ∧ s.BaseStateData = none ∧ ∃ m cls, x = some m ∧
        s.StateDataClass = some cls ∧
        s1 = { s with StateMachine := some m, BaseStateData := some cls }) := by
  unfold SetStateMachine
  cases hM : s.StateMachine with
  | some m0 => simp
  | none =>
    cases x with
    | none => simp
    | some m =>
      simp only [Option.isSome_none, Bool.false_eq_true, if_false, Initialize_eq_some,
        true_and, Option.some.injEq, exists_and_left, exists_eq_left']

/-- One successful binding or initialisation call keeps a bound state machine and an existing
state data object. -/
theorem InitCall.step_keeps (c : InitCall) (s s1 : UMachineState) (h : c.step s = some s1) :
    (∀ m, s.StateMachine = some m → s1.StateMachine = some m) ∧
    (∀ d, s.BaseStateData = some d → s1.BaseStateData = some d) := by
  cases c with
  | SetStateMachine x =>
    obtain ⟨hM, hD, _⟩ := (SetStateMachine_eq_some s s1 x).1 h
    exact ⟨fun m hm => by rw [hM] at hm; exact Option.noConfusion hm,
      fun d hd => by rw [hD] at hd; exact Option.noConfusion hd⟩
  | Initialize =>
    obtain ⟨hD, cls, _, h1⟩ := (Initialize_eq_some s s1).1 h
    subst h1
    exact ⟨fun m hm => hm, fun d hd => by rw [hD] at hd; exact Option.noConfusion hd⟩

/-- C17: `SetStateMachine(m)` succeeds exactly on a state whose state machine is not bound,
with a valid `m`, when no state data exists yet and the state data class is set; it then binds
the state machine to `m` and creates the state data. It is fatal when the state machine is
already bound or `m` is invalid. `Initialize` is fatal when the state data already exists
(second call) or the state data class is unset. After a successful `SetStateMachine` every
further `SetStateMachine` or `Initialize` is fatal, and no sequence of successful calls of the
two replaces a bound state machine or an existing state data object. -/
theorem SetStateMachine_once (s : UMachineState) :
    (∀ x s1, s.SetStateMachine x = some s1 ↔
      (s.StateMachine = none ∧ s.BaseStateData = none ∧ ∃ m cls, x = some m ∧
        s.StateDataClass = some cls ∧
        s1 = { s with StateMachine := some m, BaseStateData := some cls })) ∧
    (s.StateMachine.isSome = true → ∀ x, s.SetStateMachine x = none) ∧
    s.SetStateMachine none = none ∧
    (s.BaseStateData.isSome = true → s.Initialize = none) ∧
    (s.StateDataClass = none → s.Initialize = none) ∧
    (∀ x s1, s.SetStateMachine x = some s1 →
      s1.Initialize = none ∧ ∀ y, s1.SetStateMachine y = none) ∧
    (∀ s1, s.Initialize = some s1 → s1.Initialize = none) ∧
    (∀ calls s1, InitCall.run calls s = some s1 →
      (∀ m, s.StateMachine = some m → s1.StateMachine = some m) ∧
      (∀ d, s.BaseStateData = some d → s1.BaseStateData = some d)) := by
  refine ⟨fun x s1 => SetStateMachine_eq_some s s1 x, ?_, ?_, ?_, ?_, ?_, ?_, ?_⟩
  · intro h x
    simp [SetStateMachine, h]
  · unfold SetStateMachine
    cases s.StateMachine <;> simp
  · intro h
    simp [Initialize, CreateStateData, h]
  · intro h
    unfold Initialize CreateStateData
    cases s.BaseStateData <;> simp [h]
  · intro x s1 h
    obtain ⟨_, _, m, cls, _, _, h1⟩ := (SetStateMachine_eq_some s s1 x).1 h
    subst h1
    exact ⟨by simp [Initialize, CreateStateData], fun y => by simp [SetStateMachine]⟩
  · intro s1 h
    obtain ⟨_, cls, _, h1⟩ := (Initialize_eq_some s s1).1 h
    subst h1
    simp [Initialize, CreateStateData]
  · intro calls
    induction calls generalizing s with
    | nil =>
      intro s1 h
      simp only [InitCall.run, Option.some.injEq] at h
      subst h
      exact ⟨fun m hm => hm, fun d hd => hd⟩
    | cons c rest ih =>
      intro s1 h
      simp only [InitCall.run] at h
      cases hc : c.step s with
      | none => simp [hc] at h
      | some s2 =>
        simp only [hc] at h
        have hk := InitCall.step_keeps c s s2 hc
        have hr := ih s2 s1 h
        exact ⟨fun m hm => hr.1 m (hk.1 m hm), fun d hd => hr.2 d (hk.2 d hd)⟩

/-- Witness of C17: the fresh state is not bound and has its data class set, so
`SetStateMachine(4)` binds it and creates the data; on the result a second `SetStateMachine`
and an `Initialize` are fatal; a null state machine is fatal. -/
theorem SetStateMachine_once_witness :
    freshState.SetStateMachine (some 4) =
      some { freshState with StateMachine := some 4, BaseStateData := some 0 } ∧
    ({ freshState with StateMachine := some 4, BaseStateData := some 0 } :
      UMachineState).Initialize = none ∧
    ({ freshState with StateMachine := some 4, BaseStateData := some 0 } :
      UMachineState).SetStateMachine (some 5) = none ∧
    freshState.SetStateMachine none = none :=
  have h := SetStateMachine_once freshState
  have h1 : freshState.SetStateMachine (some 4) =
      some { freshState with StateMachine := some 4, BaseStateData := some 0 } :=
    (h.1 (some 4) _).2 ⟨by decide, by decide, 4, 0, rfl, by decide, rfl⟩
  ⟨h1, (h.2.2.2.2.2.1 (some 4) _ h1).1, (h.2.2.2.2.2.1 (some 4) _ h1).2 (some 5), h.2.2.1⟩

/-- C18, the claim refuted: with `IsInState` as specified, `IsStateActive` on a global state
whose class is in the global set and is not the top of the stack returns true, not false. -/
theorem IsStateActive_global_counterexample :
    boundGlobalState.bGlobal = true ∧
    boundGlobalState.Class ∈ machineWithGlobal.GlobalStates ∧
    machineWithGlobal.top = some 1 ∧
    machineWithGlobal.top ≠ some boundGlobalState.Class ∧
    boundGlobalState.IsStateActive exampleMachines = some true := by
  decide

/-- C18, amended: on a state bound to an orchestrator, `IsStateActive` returns what the
orchestrator's `IsInState` returns for the class of the state: true exactly when the class is
the top of the stack or is in the global set. For a class that is not in the global set this
is: true exactly when the class is the top of the stack. -/
theorem IsStateActive_spec (s : UMachineState) (machines : Nat → Option UFiniteStateMachine)
    (ref : Nat) (m : UFiniteStateMachine) (hS : s.StateMachine = some ref)
    (hM : machines ref = some m) :
    s.IsStateActive machines = some (m.IsInState s.Class) ∧
    (s.IsStateActive machines = some true ↔
      (m.top = some s.Class ∨ s.Class ∈ m.GlobalStates)) ∧
    (s.Class ∈ m.GlobalStates → s.IsStateActive machines = some true) ∧
    (s.Class ∉ m.GlobalStates →
      (s.IsStateActive machines = some true ↔ m.top = some s.Class)) := by
  have h1 : s.IsStateActive machines = some (m.IsInState s.Class) := by
    simp [IsStateActive, hS, hM]
  have h2 : s.IsStateActive machines = some true ↔
      (m.top = some s.Class ∨ s.Class ∈ m.GlobalStates) := by
    rw [h1]
    simp [UFiniteStateMachine.IsInState]
  refine ⟨h1, h2, fun hg => h2.2 (Or.inr hg), fun hn => ?_⟩
  rw [h2]
  exact ⟨fun h => h.resolve_right hn, Or.inl⟩

/-- Witness of C18 amended: the ordinary state of class `1` is the top of the stack and is
active; the global state of class `2` is in the global set and is reported active too. -/
theorem IsStateActive_spec_witness :
    boundTopState.IsStateActive exampleMachines = some true ∧
    boundGlobalState.IsStateActive exampleMachines = some true :=
  ⟨((IsStateActive_spec boundTopState exampleMachines 0 machineWithGlobal
      (by decide) (by decide)).2.2.2 (by decide)).2 (by decide),
   (IsStateActive_spec boundGlobalState exampleMachines 0 machineWithGlobal
      (by decide) (by decide)).2.2.1 (by decide)⟩

/-! ## Invariants along sequences of calls -/

theorem StepOk_refl (s : UMachineState) (k : Nat) : s.StepOk s k :=
  ⟨Or.inl rfl, Or.inl rfl, Nat.le_add_right _ _⟩

theorem StepOk_End (s : UMachineState) (w : World) (n : Option Nat) (k : Nat) :
    s.StepOk (s.End w n).1 k ∧ s.StepOk (s.Popped w).1 k := by
  have h : s.StepOk (s.End w n).1 k := by
    refine ⟨Or.inl ?_, Or.inr (Or.inl ?_), ?_⟩
    · simp [End, StopRunningLabels_eq, StopLatentExecution_Implementation_eq]
    · simp [End, StopRunningLabels_eq, StopLatentExecution_Implementation_eq]
    · simp only [armed, End, StopRunningLabels_eq, StopLatentExecution_Implementation_eq,
        List.length_nil]
      omega
  exact ⟨h, h⟩

theorem StepOk_RegisterLabel (s : UMachineState) (L : FGameplayTag) (cb : FLabelSignature)
    (k : Nat) : s.StepOk (s.RegisterLabel L cb).2 k := by
  by_cases hok : (s.RegisterLabel L cb).1 = true
  · obtain ⟨hT, hB, hC⟩ := (RegisterLabel_true_iff s L cb).1 hok
    rw [RegisterLabel_of_checks s L cb hT hB hC]
    refine ⟨Or.inr ⟨L, cb, ?_, rfl⟩, Or.inl rfl, Nat.le_add_right _ _⟩
    simpa [ContainsLabel] using hC
  · have h2 : (s.RegisterLabel L cb).2 = s := by
      unfold RegisterLabel at hok ⊢
      cases hT : IsLabelTagCorrect L <;> cases hB : cb.IsBound <;>
        cases hC : s.ContainsLabel L <;> simp [hT, hB, hC] at hok ⊢
    rw [h2]
    exact StepOk_refl s k

theorem StepOk_GotoLabel (s : UMachineState) (L : FGameplayTag) :
    s.StepOk (s.GotoLabel L).2 1 := by
  unfold GotoLabel
  cases hT : IsLabelTagCorrect L <;> cases hC : s.ContainsLabel L
  · simpa using StepOk_refl s 1
  · simpa using StepOk_refl s 1
  · simpa using StepOk_refl s 1
  · refine ⟨Or.inl ?_, Or.inr (Or.inr ?_), ?_⟩
    · simp
    · simpa using hC
    · simp only [armed, Bool.not_true, Bool.false_eq_true, if_false]
      cases s.bLabelActivated <;> simp

theorem StepOk_Tick (s s1 : UMachineState) (w w1 : World) (k : Nat)
    (h : s.Tick w = some (s1, w1)) : s.StepOk s1 k := by
  unfold Tick at h
  cases hA : s.bLabelActivated with
  | true =>
    simp only [hA, Bool.not_true, Bool.false_eq_true, if_false, Option.some.injEq,
      Prod.mk.injEq] at h
    rw [← h.1]
    exact StepOk_refl s k
  | false =>
    simp only [hA, Bool.not_false, if_true] at h
    cases hF : TMap.Find s.RegisteredLabels s.ActiveLabel with
    | none => simp [hF] at h
    | some f =>
      simp only [hF] at h
      cases hB : f.IsBound with
      | false =>
        simp only [hB, Bool.false_eq_true, if_false, Option.some.injEq, Prod.mk.injEq] at h
        rw [← h.1]
        exact StepOk_refl s k
      | true =>
        simp only [hB, if_true] at h
        cases hX : f.Execute w with
        | none => simp [hX] at h
        | some r =>
          simp only [hX, Option.some.injEq, Prod.mk.injEq] at h
          rw [← h.1]
          refine ⟨Or.inl rfl, Or.inl rfl, ?_⟩
          simp only [armed, hA, List.length_append, List.length_singleton]
          simp

theorem StepOk_call (s s1 : UMachineState) (w w1 : World) (k : Nat) :
    (s.callPushed w = some (s1, w1) → s.StepOk s1 k) ∧
    (s.callPopped w = some (s1, w1) → s.StepOk s1 k) ∧
    (s.callPaused w = some (s1, w1) → s.StepOk s1 k) ∧
    (s.callResumed w = some (s1, w1) → s.StepOk s1 k) := by
  refine ⟨?_, ?_, ?_, ?_⟩
  · intro h
    cases hG : s.bGlobal <;>
      simp [callPushed, hG, UGlobalMachineState.Pushed, Pushed] at h
    rw [← h.1]
    exact StepOk_refl s k
  · intro h
    cases hG : s.bGlobal <;>
      simp [callPopped, hG, UGlobalMachineState.Popped] at h
    have e : s1 = (s.Popped w).1 := by rw [h]
    rw [e]
    exact (StepOk_End s w none k).2
  · intro h
    cases hG : s.bGlobal <;>
      simp [callPaused, hG, UGlobalMachineState.Paused, Paused] at h
    rw [← h.1]
    exact StepOk_refl s k
  · intro h
    cases hG : s.bGlobal <;>
      simp [callResumed, hG, UGlobalMachineState.Resumed, Resumed] at h
    rw [← h.1]
    exact StepOk_refl s k

theorem StepOk_dispatch (s s1 : UMachineState) (w w1 : World) (d : Option Nat)
    (a : EStateAction) (k : Nat) (h : classHooks.dispatch s w d a = some (s1, w1)) :
    s.StepOk s1 k := by
  have hc := StepOk_call s s1 w w1 k
  cases a with
  | Begin =>
    simp only [Hooks.dispatch, classHooks, Begin, Option.some.injEq, Prod.mk.injEq] at h
    rw [← h.1]
    exact StepOk_refl s k
  | End =>
    simp only [Hooks.dispatch, classHooks, Option.some.injEq] at h
    have e : s1 = (s.End w d).1 := by rw [h]
    rw [e]
    exact (StepOk_End s w d k).1
  | Push => exact hc.1 h
  | Pop => exact hc.2.1 h
  | Resume => exact hc.2.2.2 h
  | Pause => exact hc.2.2.1 h

/-- One call that is not fatal: what it may do to the table, the active label and the running
set. -/
theorem StepOk_step (op : Op) (s s1 : UMachineState) (w w1 : World)
    (h : op.step s w = some (s1, w1)) : s.StepOk s1 (Op.gotos [op]) := by
  have hc := StepOk_call s s1 w w1 0
  cases op with
  | RegisterLabel L cb =>
    simp only [Op.step, Option.some.injEq, Prod.mk.injEq] at h
    rw [← h.1]
    exact StepOk_RegisterLabel s L cb _
  | GotoLabel L =>
    simp only [Op.step, Option.some.injEq, Prod.mk.injEq] at h
    rw [← h.1]
    exact StepOk_GotoLabel s L
  | Tick => exact StepOk_Tick s s1 w w1 _ h
  | StopRunningLabels =>
    simp only [Op.step, StopRunningLabels_eq, Option.some.injEq, Prod.mk.injEq] at h
    rw [← h.1]
    refine ⟨Or.inl rfl, Or.inl rfl, ?_⟩
    simp only [armed, List.length_nil]
    omega
  | StopLatentExecution_Implementation =>
    simp only [Op.step, StopLatentExecution_Implementation_eq, Option.some.injEq,
      Prod.mk.injEq] at h
    rw [← h.1]
    exact ⟨Or.inl rfl, Or.inl rfl, Nat.le_add_right _ _⟩
  | Begin p =>
    simp only [Op.step, Begin, Option.some.injEq, Prod.mk.injEq] at h
    rw [← h.1]
    exact StepOk_refl s _
  | End n =>
    simp only [Op.step, Option.some.injEq] at h
    have e : s1 = (s.End w n).1 := by rw [h]
    rw [e]
    exact (StepOk_End s w n _).1
  | Pushed => exact hc.1 h
  | Popped => exact hc.2.1 h
  | Paused => exact hc.2.2.1 h
  | Resumed => exact hc.2.2.2 h
  | OnStateAction raw d =>
    simp only [Op.step, OnStateAction, OnStateActionWith] at h
    cases hr : EStateAction.ofRaw raw with
    | none => simp [hr] at h
    | some a =>
      simp only [hr] at h
      cases hd : classHooks.dispatch s w d a with
      | none => simp [hd] at h
      | some r =>
        obtain ⟨s2, w2⟩ := r
        simp only [hd, Option.some.injEq, Prod.mk.injEq] at h
        rw [← h.1]
        exact StepOk_dispatch s s2 w w2 d a _ hd
  | NextTick =>
    simp only [Op.step] at h
    cases hn : w.NextTick with
    | none => simp [hn] at h
    | some w2 =>
      simp only [hn, Option.map_some', Option.some.injEq, Prod.mk.injEq] at h
      rw [← h.1]
      exact StepOk_refl s _

theorem KeepsLabels_of_StepOk (s s1 : UMachineState) (k : Nat) (h : s.StepOk s1 k) :
    s.KeepsLabels s1 := by
  intro L1 f hf
  rcases h.1 with e | ⟨L, cb, hN, e⟩
  · rw [e]
    exact hf
  · have hne : L1 ≠ L := by
      intro x
      rw [x, hN] at hf
      exact Option.noConfusion hf
    rw [e, TMap.Find_Add_other _ _ _ _ hne]
    exact hf

theorem ContainsLabel_of_Keeps (s s1 : UMachineState) (hK : s.KeepsLabels s1)
    (L : FGameplayTag) (h : s.ContainsLabel L = true) : s1.ContainsLabel L = true := by
  unfold ContainsLabel at h ⊢
  cases hf : TMap.Find s.RegisteredLabels L with
  | none => simp [hf] at h
  | some f => simp [hK L f hf]

theorem LabelsWellFormed_of_StepOk (s s1 : UMachineState) (k : Nat) (h : s.StepOk s1 k)
    (hI : s.LabelsWellFormed) : s1.LabelsWellFormed := by
  have hK := KeepsLabels_of_StepOk s s1 k h
  refine ⟨?_, ?_, ContainsLabel_of_Keeps s s1 hK _ hI.2.2⟩
  · intro L1 f hf
    rcases h.1 with e | ⟨L, cb, hN, e⟩
    · rw [e] at hf
      exact hI.1 L1 f hf
    · rw [e] at hf
      by_cases x : L1 = L
      · subst x
        rw [TMap.Find_Add_self] at hf
        simp only [Option.some.injEq] at hf
        rw [← hf]
        rfl
      · rw [TMap.Find_Add_other _ _ _ _ x] at hf
        exact hI.1 L1 f hf
  · rcases h.2.1 with e | e | e
    · rw [e]
      exact ContainsLabel_of_Keeps s s1 hK _ hI.2.1
    · rw [e]
      exact ContainsLabel_of_Keeps s s1 hK _ hI.2.2
    · exact ContainsLabel_of_Keeps s s1 hK _ e

/-- Along a sequence of calls, none of them fatal: the table stays well formed, no entry is
lost, and `armed` grows by at most the number of `GotoLabel` calls. -/
theorem run_invariant (ops : List Op) (s s1 : UMachineState) (w w1 : World)
    (h : Op.run ops s w = some (s1, w1)) :
    (s.LabelsWellFormed → s1.LabelsWellFormed) ∧ s.KeepsLabels s1 ∧
    s1.armed ≤ s.armed + Op.gotos ops := by
  induction ops generalizing s w with
  | nil =>
    simp only [Op.run, Option.some.injEq, Prod.mk.injEq] at h
    rw [← h.1]
    exact ⟨fun x => x, fun L f hf => hf, Nat.le_add_right _ _⟩
  | cons op rest ih =>
    simp only [Op.run] at h
    cases hs : op.step s w with
    | none => simp [hs] at h
    | some r =>
      obtain ⟨s2, w2⟩ := r
      simp only [hs] at h
      have h1 := StepOk_step op s s2 w w2 hs
      have h2 := ih s2 w2 h
      have hg : Op.gotos (op :: rest) = Op.gotos [op] + Op.gotos rest := by
        cases op <;> simp only [Op.gotos] <;> omega
      refine ⟨fun hI => h2.1 (LabelsWellFormed_of_StepOk s s2 _ h1 hI), ?_, ?_⟩
      · intro L f hf
        exact h2.2.1 L f (KeepsLabels_of_StepOk s s2 _ h1 L f hf)
      · have a1 := h1.2.2
        have a2 := h2.2.2
        omega

theorem run_append (pre post : List Op) (s : UMachineState) (w : World) :
    Op.run (pre ++ post) s w = (Op.run pre s w).bind (fun r => Op.run post r.1 r.2) := by
  induction pre generalizing s w with
  | nil => simp [Op.run]
  | cons op rest ih =>
    simp only [List.cons_append, Op.run]
    cases hs : op.step s w with
    | none => simp
    | some r =>
      obtain ⟨s2, w2⟩ := r
      simp [ih]

theorem LabelsWellFormed_ctor (Class : Nat) (bGlobal : Bool) :
    (ctor Class bGlobal).LabelsWellFormed := by
  have hC : ctor Class bGlobal =
      { Class := Class, bGlobal := bGlobal,
        RegisteredLabels :=
          [(TAG_StateMachine_Label_Default, .callbackWrapper (.routine Label_Default))],
        ActiveLabel := TAG_StateMachine_Label_Default, bLabelActivated := false,
        RunningLabelCoroutines := [], RunningLatentExecutions := [],
        StateMachine := none, StateDataClass := some 0, BaseStateData := none } := by
    unfold ctor
    rw [RegisterLabel_of_checks _ _ _ (by decide) (by decide) (by simp [ContainsLabel, TMap.Find])]
    simp [TMap.Add]
  have hT : (ctor Class bGlobal).RegisteredLabels =
      [(TAG_StateMachine_Label_Default, .callbackWrapper (.routine Label_Default))] := by
    rw [hC]
  have hA : (ctor Class bGlobal).ActiveLabel = TAG_StateMachine_Label_Default := by
    rw [hC]
  refine ⟨?_, ?_, ?_⟩
  · intro L f hf
    rw [hT] at hf
    by_cases x : TAG_StateMachine_Label_Default = L
    · simp [TMap.Find, x] at hf
      rw [← hf]
      rfl
    · simp [TMap.Find, x] at hf
  · rw [hA]
    simp [ContainsLabel, hT, TMap.Find]
  · simp [ContainsLabel, hT, TMap.Find]

/-- On a state with a well-formed table `Tick` is not fatal and leaves the label activated. -/
theorem Tick_of_LabelsWellFormed (s : UMachineState) (w : World) (hI : s.LabelsWellFormed) :
    ∃ s2 w2, s.Tick w = some (s2, w2) ∧ s2.bLabelActivated = true := by
  cases hA : s.bLabelActivated with
  | true => exact ⟨s, w, by simp [Tick, hA], hA⟩
  | false =>
    have hc := hI.2.1
    unfold ContainsLabel at hc
    cases hF : TMap.Find s.RegisteredLabels s.ActiveLabel with
    | none => simp [hF] at hc
    | some f =>
      have hB := hI.1 _ f hF
      obtain ⟨fr, ids, hS⟩ := start_of_IsBound_aux f hB
      exact ⟨_, _, Tick_start s w f fr ids hA hF hB hS, rfl⟩

/-- C19: a freshly constructed machine state has the `Default` label active and registered
(as the wrapper around `Label_Default`), and in every state reached from it by a sequence of
`RegisterLabel`, `GotoLabel`, `Tick`, `StopRunningLabels`, the local latent sweep, the six
hooks, `OnStateAction` and scheduling ticks, none of them fatal: the active label is
registered with a bound delegate, every entry of the table is bound, every entry the table had
at any earlier point of the sequence is still there, `Tick` is not fatal and leaves the label
activated (so it took neither the missing-label check nor the unbound branch), and the same
holds for `Tick` after `End` or `Popped`. -/
theorem reachable_labels_invariant (Class : Nat) (bGlobal : Bool) (w : World) :
    (ctor Class bGlobal).ActiveLabel = TAG_StateMachine_Label_Default ∧
    (ctor Class bGlobal).ContainsLabel TAG_StateMachine_Label_Default = true ∧
    ∀ ops s1 w1, Op.run ops (ctor Class bGlobal) w = some (s1, w1) →
      (∃ f, TMap.Find s1.RegisteredLabels s1.ActiveLabel = some f ∧ f.IsBound = true) ∧
      (∀ L f, TMap.Find s1.RegisteredLabels L = some f → f.IsBound = true) ∧
      (∀ pre post s0 w0, ops = pre ++ post →
        Op.run pre (ctor Class bGlobal) w = some (s0, w0) →
        ∀ L f, TMap.Find s0.RegisteredLabels L = some f →
          TMap.Find s1.RegisteredLabels L = some f) ∧
      (∃ s2 w2, s1.Tick w1 = some (s2, w2) ∧ s2.bLabelActivated = true) ∧
      (∀ n, ∃ s2 w2, (s1.End w1 n).1.Tick (s1.End w1 n).2 = some (s2, w2) ∧
        s2.bLabelActivated = true) ∧
      (∃ s2 w2, (s1.Popped w1).1.Tick (s1.Popped w1).2 = some (s2, w2) ∧
        s2.bLabelActivated = true) := by
  have h0 := LabelsWellFormed_ctor Class bGlobal
  refine ⟨?_, h0.2.2, ?_⟩
  · unfold ctor
    rw [RegisterLabel_of_checks _ _ _ (by decide) (by decide)
      (by simp [ContainsLabel, TMap.Find])]
  · intro ops s1 w1 hrun
    have hI := (run_invariant ops _ s1 w w1 hrun).1 h0
    have hEnd : ∀ n, (s1.End w1 n).1.LabelsWellFormed := fun n =>
      LabelsWellFormed_of_StepOk s1 _ 0 (StepOk_End s1 w1 n 0).1 hI
    refine ⟨?_, hI.1, ?_, Tick_of_LabelsWellFormed s1 w1 hI, ?_, ?_⟩
    · have hc := hI.2.1
      unfold ContainsLabel at hc
      cases hF : TMap.Find s1.RegisteredLabels s1.ActiveLabel with
      | none => simp [hF] at hc
      | some f => exact ⟨f, rfl, hI.1 _ f hF⟩
    · intro pre post s0 w0 hsplit hpre
      rw [hsplit, run_append, hpre] at hrun
      exact (run_invariant post s0 s1 w0 w1 hrun).2.1
    · intro n
      exact Tick_of_LabelsWellFormed _ _ (hEnd n)
    · exact Tick_of_LabelsWellFormed _ _ (hEnd none)

/-- Witness of C19: the fresh state after `RegisterLabel(Attack)`, `GotoLabel(Attack)`, `Tick`:
the active label `Attack` is registered and bound, the `Default` entry of the fresh state is
still there, and `Tick` after `End` is not fatal. -/
theorem reachable_labels_invariant_witness :
    Op.run [.RegisterLabel tagAttack (.routine routineAttack), .GotoLabel tagAttack, .Tick]
      (ctor 1 false) emptyWorld = some (attackTicked, attackWorld) ∧
    (∃ f, TMap.Find attackTicked.RegisteredLabels attackTicked.ActiveLabel = some f ∧
      f.IsBound = true) ∧
    TMap.Find attackTicked.RegisteredLabels TAG_StateMachine_Label_Default =
      some (.callbackWrapper (.routine Label_Default)) ∧
    (∃ s2 w2, (attackTicked.End attackWorld none).1.Tick (attackTicked.End attackWorld none).2 =
      some (s2, w2) ∧ s2.bLabelActivated = true) :=
  have hrun : Op.run [.RegisterLabel tagAttack (.routine routineAttack), .GotoLabel tagAttack,
      .Tick] (ctor 1 false) emptyWorld = some (attackTicked, attackWorld) := by decide
  have h := (reachable_labels_invariant 1 false emptyWorld).2.2 _ _ _ hrun
  ⟨hrun, h.1,
   h.2.2.1 [] _ (ctor 1 false) emptyWorld rfl rfl TAG_StateMachine_Label_Default _ (by decide),
   h.2.2.2.2.1 none⟩

/-- C20, the claim refuted: from a fresh state, `Attack` and `Other` are registered, `Attack` is
made the active label, started by `Tick` and resumed by the scheduler, then `GotoLabel(Other)`,
`Tick` and a scheduling tick follow. Both handles are tracked, both user routines have been
invoked and neither coroutine is done: two tracked handles are not yet done. -/
theorem parallel_labels_counterexample :
    Op.run parallelOps freshState emptyWorld = some (parallelState, parallelWorld) ∧
    parallelState.RunningLabelCoroutines = [0, 1] ∧
    parallelWorld.IsDone 0 = false ∧ parallelWorld.IsDone 1 = false ∧
    parallelWorld.labelInvocations = [7, 8] ∧
    parallelState.notDone parallelWorld = 2 ∧
    ¬ (parallelState.notDone parallelWorld ≤ 1) := by
  decide

/-- C20, amended: in every state reached from a freshly constructed machine state by a sequence
of calls, none of them fatal, the number of tracked handles that are not yet done is at most
the number of tracked handles, which (counting one more while the active label is still to be
started) is at most one plus the number of `GotoLabel` calls of the sequence; when the sequence
has no `GotoLabel` call, at most one tracked handle is not yet done. -/
theorem running_handles_bound (Class : Nat) (bGlobal : Bool) (w : World) (ops : List Op)
    (s1 : UMachineState) (w1 : World)
    (hrun : Op.run ops (ctor Class bGlobal) w = some (s1, w1)) :
    s1.notDone w1 ≤ s1.RunningLabelCoroutines.length ∧
    s1.RunningLabelCoroutines.length + (if s1.bLabelActivated then 0 else 1) ≤
      1 + Op.gotos ops ∧
    s1.notDone w1 ≤ 1 + Op.gotos ops ∧
    (Op.gotos ops = 0 → s1.notDone w1 ≤ 1) := by
  have h := (run_invariant ops _ s1 w w1 hrun).2.2
  have h0 : (ctor Class bGlobal).armed = 1 := by
    unfold ctor
    rw [RegisterLabel_of_checks _ _ _ (by decide) (by decide)
      (by simp [ContainsLabel, TMap.Find])]
    rfl
  rw [h0] at h
  have hle : s1.notDone w1 ≤ s1.RunningLabelCoroutines.length := List.countP_le_length _
  have hb : s1.RunningLabelCoroutines.length + (if s1.bLabelActivated then 0 else 1) ≤
      1 + Op.gotos ops := h
  refine ⟨hle, hb, ?_, ?_⟩
  · omega
  · intro hz
    omega

/-- Witness of C20 amended: the run of `parallelOps` has two `GotoLabel` calls and ends with two
tracked handles; the run of a single `Tick` has none and ends with one handle not yet done. -/
theorem running_handles_bound_witness :
    parallelState.notDone parallelWorld ≤ 1 + Op.gotos parallelOps ∧
    defaultTicked.notDone defaultWorld ≤ 1 :=
  ⟨(running_handles_bound 1 false emptyWorld parallelOps parallelState parallelWorld
      (by decide)).2.2.1,
   (running_handles_bound 1 false emptyWorld [.Tick] defaultTicked defaultWorld
      (by decide)).2.2.2 (by decide)⟩

end UMachineState

end FSM
